import Mathlib

/-!
DoonEngine `shader.c`: source loading, include splicing, program building, uniform names

A shallow embedding of `src/DoonEngine/shader.c` and a verification of its specification.

The model:

* Memory is a heap of blocks.  A pointer is `none` (NULL) or `some b`, the start of block
  `b`; offsets are passed separately where the C code does pointer arithmetic.  `free`
  counts how often a block was released, so "freed exactly once" reads `frees = 1`.
* A byte access outside its block is counted in `oobReads` / `oobWrites`; the byte written
  there is dropped and the byte read there is an unspecified value taken from `junk`.
  An access through NULL or through a released block, a string scan that leaves its block,
  and a loop that never exits are faults: the execution does not return.
* The local array `fullName` of the struct setters is a stack area: its 256 bytes and the
  stack memory behind them.  A byte stored behind the array is kept there, later scans read
  it back, and the setters report how many bytes were stored behind the array.  The strings
  passed to the setters lie outside that part of the stack.
* The C library, the file system and the GL driver are oracles stored in the world: which
  files exist and how many bytes they deliver, which allocations succeed, which object ids
  and status values the driver answers.  Every request to the driver is logged.
* `unsigned int` values are natural numbers reduced modulo `2 ^ 32`; `size_t` and `long`
  values are natural numbers, being sizes of objects that exist in memory.
* The numeric types of the math header are parameters: the setters only pass them on.
-/

namespace DoonEngine

/-! ## Data model -/

/-- A `char`, as its unsigned value. -/
abbrev Byte := Nat

/-- A pointer to the start of a heap block, `none` for NULL. -/
abbrev Ptr := Option Nat

/-- Ways an execution stops without returning. -/
inductive Fault where
  | nullDeref
  | danglingDeref
  | overrun
  | diverges
deriving DecidableEq

/-- One heap allocation: its bytes and the number of `free` calls it has received. -/
structure Block where
  bytes : List Byte
  frees : Nat
deriving DecidableEq

/-- A file on disk: its bytes, and how many bytes a read delivers before an I/O error. -/
structure File where
  content : List Byte
  readLimit : Nat
deriving DecidableEq

/-- The three stage kinds passed to `glCreateShader`. -/
inductive ShaderKind where
  | vertex
  | fragment
  | compute
deriving DecidableEq

/-- Requests issued to the GL driver, with the values the driver answered. -/
inductive GLCall where
  | createShader (kind : ShaderKind) (id : Nat)
  | shaderSource (shader : Nat) (source : List Byte)
  | compileShader (shader : Nat)
  | getShaderiv (shader : Nat) (status : Int)
  | deleteShader (shader : Nat)
  | createProgram (id : Nat)
  | attachShader (program shader : Nat)
  | linkProgram (program : Nat)
  | getProgramiv (program : Nat) (status : Int)
  | deleteProgram (program : Nat)
deriving DecidableEq

/-- Process state together with the oracles of its environment. -/
structure World where
  /-- The file system seen by `fopen`. -/
  files : String → Option File
  /-- Outcome of the coming allocation requests, in order; an exhausted plan succeeds. -/
  allocPlan : List Bool
  /-- Unspecified bytes: fresh `malloc` memory and reads outside a block. -/
  junk : Nat → Byte
  heap : Nat → Block
  /-- Number of blocks allocated so far; block ids below it are in use. -/
  next : Nat
  oobReads : Nat
  oobWrites : Nat
  /-- Text printed with `printf`, oldest first. -/
  out : List String
  /-- Object ids the driver hands out next. -/
  glIds : List Nat
  /-- Status values the driver reports next. -/
  glStatus : List Int
  /-- Requests received by the driver, oldest first. -/
  glCalls : List GLCall

/-! ## C library -/

/-- Replace block `b` of a heap. -/
def setBlock (h : Nat → Block) (b : Nat) (blk : Block) : Nat → Block :=
  fun x => if x = b then blk else h x

/-- Block `b` is allocated and not released. -/
def World.live (w : World) (b : Nat) : Bool :=
  decide (b < w.next) && decide ((w.heap b).frees = 0)

/-- Allocation of a block with the given initial bytes, `NULL` when the plan says so. -/
def allocate (w : World) (init : List Byte) : Ptr × World :=
  match w.allocPlan with
  | false :: plan => (none, { w with allocPlan := plan })
  | plan =>
    (some w.next,
      { w with allocPlan := plan.tail, heap := setBlock w.heap w.next ⟨init, 0⟩,
               next := w.next + 1 })

/-- Model of `calloc(1, n)`: a zero-filled block. -/
def calloc (w : World) (n : Nat) : Ptr × World :=
  allocate w (List.replicate n 0)

/-- Model of `malloc(n)`: a block of unspecified bytes. -/
def malloc (w : World) (n : Nat) : Ptr × World :=
  allocate w ((List.range n).map w.junk)

/-- Model of `free(p)`; `free(NULL)` does nothing. -/
def free (w : World) (p : Ptr) : World :=
  match p with
  | none => w
  | some b => { w with heap := setBlock w.heap b { w.heap b with frees := (w.heap b).frees + 1 } }

/-- Model of `printf` with an already formatted message. -/
def printf (w : World) (msg : String) : World :=
  { w with out := w.out ++ [msg] }

/-- Byte `i` of a memory area, an unspecified byte outside it. -/
def peek (junk : Nat → Byte) (mem : List Byte) (i : Nat) : Byte :=
  match mem[i]? with
  | some c => c
  | none => junk i

/-- Byte-by-byte copy of `n` bytes from `src + soff` to `dst + doff`; a store outside
`dst` is dropped. -/
def copyBytes (junk : Nat → Byte) (src : List Byte) : List Byte → Nat → Nat → Nat → List Byte
  | dst, _, _, 0 => dst
  | dst, doff, soff, n + 1 =>
    copyBytes junk src (dst.set doff (peek junk src soff)) (doff + 1) (soff + 1) n

/-- Number of offsets among `off, …, off + n - 1` that lie outside an area of `len` bytes. -/
def outside (len off n : Nat) : Nat :=
  (off + n) - max off len

/-- Model of `memcpy(dst + doff, src + soff, n)`. -/
def memcpy (w : World) (dst : Ptr) (doff : Nat) (src : Ptr) (soff n : Nat) : Except Fault World :=
  match dst, src with
  | some d, some s =>
    if w.live d && w.live s then
      .ok { w with
        heap := setBlock w.heap d
          { w.heap d with bytes := copyBytes w.junk (w.heap s).bytes (w.heap d).bytes doff soff n },
        oobReads := w.oobReads + outside (w.heap s).bytes.length soff n,
        oobWrites := w.oobWrites + outside (w.heap d).bytes.length doff n }
    else .error .danglingDeref
  | _, _ => .error .nullDeref

/-- Scan for the terminating zero byte; `none` when the area holds none. -/
def strlenBytes : List Byte → Option Nat
  | [] => none
  | c :: rest => if c = 0 then some 0 else (strlenBytes rest).map (· + 1)

/-- Model of `strlen(p)`. -/
def strlen (w : World) (p : Ptr) : Except Fault Nat :=
  match p with
  | none => .error .nullDeref
  | some b =>
    if w.live b then
      match strlenBytes (w.heap b).bytes with
      | some n => .ok n
      | none => .error .overrun
    else .error .danglingDeref

/-- Offset of the first occurrence of `needle` in the string `hay`, as `strstr` finds it. -/
def strstr : List Byte → List Byte → Option Nat
  | [], needle => if needle = [] then some 0 else none
  | c :: rest, needle =>
    if needle.isPrefixOf (c :: rest) then some 0 else (strstr rest needle).map (· + 1)

/-- Model of `fopen(path, "rb")`. -/
def fopen (w : World) (path : String) : Option File :=
  w.files path

/-- Model of `fread(buffer, size, nmemb, file)` at file position 0 into block `b`: the
number of complete items read.  A request with `size = 0` or `nmemb = 0` returns 0. -/
def fread (w : World) (b : Nat) (size nmemb : Nat) (file : File) : Nat × World :=
  if size = 0 ∨ nmemb = 0 then (0, w)
  else
    let got := min (size * nmemb) (min file.readLimit file.content.length)
    (got / size,
      { w with
        heap := setBlock w.heap b
          { w.heap b with bytes := copyBytes w.junk file.content (w.heap b).bytes 0 0 got },
        oobWrites := w.oobWrites + outside (w.heap b).bytes.length 0 got })

/-! ## `shader.c`: source loader -/

/-- The text `#version`. -/
def VERSION : List Byte := [35, 118, 101, 114, 115, 105, 111, 110]

/-- The newline character. -/
def NEWLINE : Byte := 10

/-- Model of `load_into_buffer(path, &buffer)`: the returned flag, the value left in
`*buffer`, and the new world. -/
def load_into_buffer (w : World) (path : String) : Bool × Ptr × World :=
  match fopen w path with
  | some file =>
    let length := file.content.length
    match calloc w (length + 1) with
    | (some b, w) =>
      match fread w b length 1 file with
      | (n, w) =>
        if n = 1 then (true, some b, w)
        else
          (false, some b,
            free (printf w ("ERROR - COULD NOT READ FROM FILE " ++ path ++ "\n")) (some b))
    | (none, w) =>
      (false, none, printf w "ERROR - COULD NOT ALLOCATE MEMORY FOR SHADER SOURCE CODE")
  | none => (false, none, printf w ("ERROR - COULD NOT OPEN FILE " ++ path ++ "\n"))

/-- The `while(baseSource[i] != '\n')` loop of `add_include_file`, with `i` an
`unsigned int`: the index of the newline, or `none` when `i >= baseLen` was reached.  The
first argument bounds the number of iterations; `i` has `2 ^ 32` possible values, so a run of
`2 ^ 32` iterations without exit repeats forever. -/
def scanNewline (mem : List Byte) (baseLen : Nat) : Nat → Nat → Except Fault (Option Nat)
  | 0, _ => .error .diverges
  | fuel + 1, i =>
    match mem[i]? with
    | none => .error .overrun
    | some c =>
      if c = NEWLINE then .ok (some i)
      else
        let i := (i + 1) % 2 ^ 32
        if i ≥ baseLen then .ok none else scanNewline mem baseLen fuel i

/-- Model of `add_include_file(baseSource, includePath)`. -/
def add_include_file (w : World) (baseSource : Ptr) (includePath : Option String) :
    Except Fault (Ptr × World) :=
  match includePath with
  | none => .ok (baseSource, w)
  | some path =>
    match load_into_buffer w path with
    | (false, _, w) => .ok (none, free w baseSource)
    | (true, includeSource, w) =>
      match strlen w baseSource, strlen w includeSource with
      | .error f, _ => .error f
      | _, .error f => .error f
      | .ok baseLen, .ok includeLen =>
        let base := match baseSource with
          | some b => (w.heap b).bytes
          | none => []
        match strstr (base.take baseLen) VERSION with
        | none =>
          .ok (none,
            free (free (printf w "ERROR - SHADER SOURCE FILE DID NOT CONTAIN A #version")
              baseSource) includeSource)
        | some versionStart =>
          match scanNewline base baseLen (2 ^ 32) (versionStart % 2 ^ 32) with
          | .error f => .error f
          | .ok none =>
            .ok (none,
              free (free (printf w
                "ERROR - END OF SHADER SOURCE FILE REACHED BEFORE END OF #version WAS FOUND")
                baseSource) includeSource)
          | .ok (some i) =>
            match malloc w (baseLen + includeLen + 1) with
            | (combinedSource, w) =>
              match memcpy w combinedSource 0 baseSource 0 ((i + 1) % 2 ^ 32) with
              | .error f => .error f
              | .ok w =>
              match memcpy w combinedSource ((i + 1) % 2 ^ 32) includeSource 0 includeLen with
              | .error f => .error f
              | .ok w =>
              match memcpy w combinedSource ((i + 1) % 2 ^ 32 + includeLen)
                  baseSource ((i + 1) % 2 ^ 32) (baseLen - i + 1) with
              | .error f => .error f
              | .ok w => .ok (combinedSource, free (free w baseSource) includeSource)

/-! ## GL driver -/

/-- Conversion of an `unsigned int` to `int`, as done by `return program;` in a
function returning `int` (two's complement). -/
def toInt (u : Nat) : Int :=
  if u % 2 ^ 32 < 2 ^ 31 then ((u % 2 ^ 32 : Nat) : Int) else ((u % 2 ^ 32 : Nat) : Int) - 2 ^ 32

/-- Model of `glCreateShader(kind)`: the driver answers with its next id (a `GLuint`). -/
def glCreateShader (w : World) (kind : ShaderKind) : Nat × World :=
  let id := w.glIds.headD 0 % 2 ^ 32
  (id, { w with glIds := w.glIds.tail, glCalls := w.glCalls ++ [.createShader kind id] })

/-- Model of `glShaderSource(shader, 1, &source, NULL)`: the driver reads the
null-terminated string at `source`. -/
def glShaderSource (w : World) (shader : Nat) (source : Ptr) : Except Fault World :=
  match strlen w source with
  | .error f => .error f
  | .ok n =>
    let mem := match source with
      | some b => (w.heap b).bytes
      | none => []
    .ok { w with glCalls := w.glCalls ++ [.shaderSource shader (mem.take n)] }

/-- Model of `glCompileShader(shader)`. -/
def glCompileShader (w : World) (shader : Nat) : World :=
  { w with glCalls := w.glCalls ++ [.compileShader shader] }

/-- Model of `glGetShaderiv(shader, GL_COMPILE_STATUS, &success)`: the value stored in
`success`. -/
def glGetShaderiv (w : World) (shader : Nat) : Int × World :=
  let status := w.glStatus.headD 0
  (status, { w with glStatus := w.glStatus.tail,
                    glCalls := w.glCalls ++ [.getShaderiv shader status] })

/-- Model of `glDeleteShader(shader)`. -/
def glDeleteShader (w : World) (shader : Nat) : World :=
  { w with glCalls := w.glCalls ++ [.deleteShader shader] }

/-- Model of `glCreateProgram()`: the driver answers with its next id (a `GLuint`). -/
def glCreateProgram (w : World) : Nat × World :=
  let id := w.glIds.headD 0 % 2 ^ 32
  (id, { w with glIds := w.glIds.tail, glCalls := w.glCalls ++ [.createProgram id] })

/-- Model of `glAttachShader(program, shader)`. -/
def glAttachShader (w : World) (program shader : Nat) : World :=
  { w with glCalls := w.glCalls ++ [.attachShader program shader] }

/-- Model of `glLinkProgram(program)`. -/
def glLinkProgram (w : World) (program : Nat) : World :=
  { w with glCalls := w.glCalls ++ [.linkProgram program] }

/-- Model of `glGetProgramiv(program, GL_LINK_STATUS, &success)`: the value stored in
`success`. -/
def glGetProgramiv (w : World) (program : Nat) : Int × World :=
  let status := w.glStatus.headD 0
  (status, { w with glStatus := w.glStatus.tail,
                    glCalls := w.glCalls ++ [.getProgramiv program status] })

/-- Model of `glDeleteProgram(program)`. -/
def glDeleteProgram (w : World) (program : Nat) : World :=
  { w with glCalls := w.glCalls ++ [.deleteProgram program] }

/-! ## `shader.c`: program builder -/

/-- Model of `shader_load(vertexPath, vertexIncludePath, fragmentPath, fragmentIncludePath)`. -/
def shader_load (w : World) (vertexPath : String) (vertexIncludePath : Option String)
    (fragmentPath : String) (fragmentIncludePath : Option String) :
    Except Fault (Int × World) :=
  match load_into_buffer w vertexPath with
  | (false, _, w) => .ok (-1, w)
  | (true, vertexSource, w) =>
  match load_into_buffer w fragmentPath with
  | (false, _, w) => .ok (-1, free w vertexSource)
  | (true, fragmentSource, w) =>
  match add_include_file w vertexSource vertexIncludePath with
  | .error f => .error f
  | .ok (vertexSource, w) =>
  match add_include_file w fragmentSource fragmentIncludePath with
  | .error f => .error f
  | .ok (fragmentSource, w) =>
  if vertexSource = none ∨ fragmentSource = none then
    .ok (-1, free (free w vertexSource) fragmentSource)
  else
  match glCreateShader w .vertex with
  | (vertex, w) =>
  match glShaderSource w vertex vertexSource with
  | .error f => .error f
  | .ok w =>
  match glGetShaderiv (glCompileShader w vertex) vertex with
  | (success, w) =>
  if success = 0 then
    .ok (-1, glDeleteShader (free (free w vertexSource) fragmentSource) vertex)
  else
  match glCreateShader w .fragment with
  | (fragment, w) =>
  match glShaderSource w fragment fragmentSource with
  | .error f => .error f
  | .ok w =>
  match glGetShaderiv (glCompileShader w fragment) fragment with
  | (success, w) =>
  if success = 0 then
    .ok (-1, glDeleteShader (glDeleteShader (free (free w vertexSource) fragmentSource)
      vertex) fragment)
  else
  match glCreateProgram w with
  | (program, w) =>
  match glGetProgramiv
      (glLinkProgram (glAttachShader (glAttachShader w program vertex) program fragment)
        program) program with
  | (success, w) =>
  if success = 0 then
    .ok (-1, glDeleteProgram (glDeleteShader (glDeleteShader
      (free (free w vertexSource) fragmentSource) vertex) fragment) program)
  else
    .ok (toInt program,
      free (free (glDeleteShader (glDeleteShader w vertex) fragment) vertexSource)
        fragmentSource)

/-- Model of `compute_shader_load(path, includePath)`. -/
def compute_shader_load (w : World) (path : String) (includePath : Option String) :
    Except Fault (Int × World) :=
  match load_into_buffer w path with
  | (false, _, w) => .ok (-1, w)
  | (true, source, w) =>
  match add_include_file w source includePath with
  | .error f => .error f
  | .ok (source, w) =>
  if source = none then .ok (-1, w)
  else
  match glCreateShader w .compute with
  | (compute, w) =>
  match glShaderSource w compute source with
  | .error f => .error f
  | .ok w =>
  match glGetShaderiv (glCompileShader w compute) compute with
  | (success, w) =>
  if success = 0 then .ok (-1, glDeleteShader (free w source) compute)
  else
  match glCreateProgram w with
  | (program, w) =>
  match glGetProgramiv (glLinkProgram (glAttachShader w program compute) program) program with
  | (success, w) =>
  if success = 0 then
    .ok (-1, glDeleteProgram (glDeleteShader (free w source) compute) program)
  else
    .ok (toInt program, free (glDeleteShader w compute) source)

/-! ## `shader.c`: uniform access -/

/-- The numeric types of the math header and of GL, which the setters only pass on. -/
structure Numerics where
  float : Type
  double : Type
  vec2 : Type
  vec3 : Type
  vec4 : Type
  mat2 : Type
  mat3 : Type
  mat4 : Type

/-- Uniform writes received by the driver. -/
inductive UniformCall (N : Numerics) where
  | uniform1i (location : Int) (v0 : Int)
  | uniform1ui (location : Int) (v0 : Nat)
  | uniform1f (location : Int) (v0 : N.float)
  | uniform1d (location : Int) (x : N.double)
  | uniform2fv (location : Int) (count : Nat) (value : N.vec2)
  | uniform3fv (location : Int) (count : Nat) (value : N.vec3)
  | uniform4fv (location : Int) (count : Nat) (value : N.vec4)
  | uniformMatrix2fv (location : Int) (count : Nat) (transpose : Bool) (value : N.mat2)
  | uniformMatrix3fv (location : Int) (count : Nat) (transpose : Bool) (value : N.mat3)
  | uniformMatrix4fv (location : Int) (count : Nat) (transpose : Bool) (value : N.mat4)

/-- A stack area starts at a local array and continues into the stack memory behind it.  It is
the list of its bytes as far as the execution has determined them: at first the bytes of the
array, later also every byte stored behind the array.  `pokeStack` is the store `mem[i] = v`:
inside the known part it replaces a byte, behind it the byte is kept as well and the area
grows up to it (bytes skipped on the way are the unspecified bytes of `garbage`). -/
def pokeStack (garbage : Nat → Byte) (mem : List Byte) (i : Nat) (v : Byte) : List Byte :=
  if i < mem.length then mem.set i v
  else mem ++ (List.range' mem.length (i - mem.length)).map garbage ++ [v]

/-- The copy loop of `strcpy` and `strcat`: `n` bytes from `src + soff` to `dst + doff`, one
after the other, where `dst` is a stack area. -/
def copyStack (garbage : Nat → Byte) (src : List Byte) : List Byte → Nat → Nat → Nat → List Byte
  | dst, _, _, 0 => dst
  | dst, doff, soff, n + 1 =>
    copyStack garbage src (pokeStack garbage dst doff (peek garbage src soff))
      (doff + 1) (soff + 1) n

/-- Model of `strcpy(dest, src)` where `dest` is a stack area: the string of `src` and its
terminator are stored from offset 0 on, also where they run past the array. -/
def strcpy (garbage : Nat → Byte) (dest src : List Byte) : Except Fault (List Byte) :=
  match strlenBytes src with
  | none => .error .overrun
  | some n => .ok (copyStack garbage src dest 0 0 (n + 1))

/-- Model of `strcat(dest, src)` where `dest` is a stack area: the scan for the terminator of
`dest` runs through the array and the bytes stored behind it, and the string of `src` is
stored from the terminator on.  A scan that finds no terminator among the known bytes runs
into memory of unknown content and is a fault. -/
def strcat (garbage : Nat → Byte) (dest src : List Byte) : Except Fault (List Byte) :=
  match strlenBytes dest, strlenBytes src with
  | some d, some n => .ok (copyStack garbage src dest d 0 (n + 1))
  | _, _ => .error .overrun

/-- Model of `get_full_name(dest, structName, name)` where `dest` is a stack area and the two
source strings lie elsewhere: the stack area after the three library calls. -/
def get_full_name (garbage : Nat → Byte) (dest structName name : List Byte) :
    Except Fault (List Byte) :=
  match strcpy garbage dest structName with
  | .error f => .error f
  | .ok dest =>
  match strcat garbage dest [46, 0] with
  | .error f => .error f
  | .ok dest =>
  match strcat garbage dest name with
  | .error f => .error f
  | .ok dest => .ok dest

/-- Model of `glGetUniformLocation(program, name)`: the driver reads the null-terminated
string at `name` and answers with `locate program string`. -/
def glGetUniformLocation (locate : Nat → List Byte → Int) (program : Nat) (name : List Byte) :
    Except Fault Int :=
  match strlenBytes name with
  | none => .error .overrun
  | some n => .ok (locate program (name.take n))

/-- The local array `char fullName[256]` before initialisation. -/
def fullNameArray (garbage : Nat → Byte) : List Byte :=
  (List.range 256).map garbage

section setters
variable {N : Numerics} (locate : Nat → List Byte → Int)

variable (garbage : Nat → Byte)

/-- Model of `shader_struct_uniform_int(id, structName, name, val)`: the write issued and the
number of bytes that were stored behind the 256 bytes of `fullName`.  The driver reads the name
from the stack area that starts at `fullName`. -/
def shader_struct_uniform_int (id : Nat) (structName name : List Byte) (val : Int) :
    Except Fault (UniformCall N × Nat) :=
  match get_full_name garbage (fullNameArray garbage) structName name with
  | .error f => .error f
  | .ok fullName =>
    (glGetUniformLocation locate id fullName).map (fun l =>
      (.uniform1i l val, fullName.length - 256))

end setters

/-! ## Vocabulary of the statements -/

/-- The list `needle` occurs in `s` at offset `v` and at no smaller offset. -/
def FirstOccurrence (needle s : List Byte) (v : Nat) : Prop :=
  needle <+: s.drop v ∧ ∀ k, k < v → ¬ needle <+: s.drop k

/-- The world after a successful load of file `f`. -/
def loaded (w : World) (f : File) : World :=
  { w with allocPlan := w.allocPlan.tail,
           heap := setBlock w.heap w.next ⟨f.content ++ [0], 0⟩,
           next := w.next + 1 }

/-- Pointer `p` addresses a live buffer holding the null-terminated string `s`. -/
def HoldsString (w : World) (p : Ptr) (s : List Byte) : Prop :=
  ∃ b rest, p = some b ∧ w.live b = true ∧ (w.heap b).bytes = s ++ 0 :: rest ∧ 0 ∉ s

/-- Relative to the start state `w0`, the blocks allocated since are exactly accounted for:
those in `S` are live and never freed, all others have been freed exactly once; the blocks
of `w0` are untouched. -/
def Owns (w0 w : World) (S : Finset Nat) : Prop :=
  w0.next ≤ w.next ∧ (∀ x, x < w0.next → w.heap x = w0.heap x) ∧
  (∀ x, w0.next ≤ x → x < w.next → (w.heap x).frees = if x ∈ S then 0 else 1) ∧
  (∀ x ∈ S, w0.next ≤ x ∧ x < w.next)

/-- The driver-facing part of the state is unchanged. -/
def SameGL (w w' : World) : Prop :=
  w'.glCalls = w.glCalls ∧ w'.glIds = w.glIds ∧ w'.glStatus = w.glStatus

/-- Both sources were loaded and combined: the four steps before the first driver request
succeeded, ending in state `w4` with the buffers `vertexSource` and `fragmentSource`. -/
def SourcesReady (w : World) (vertexPath : String) (vertexIncludePath : Option String)
    (fragmentPath : String) (fragmentIncludePath : Option String)
    (vertexSource fragmentSource : Nat) (w4 : World) : Prop :=
  ∃ p1 w1 p2 w2 w3,
    load_into_buffer w vertexPath = (true, p1, w1) ∧
    load_into_buffer w1 fragmentPath = (true, p2, w2) ∧
    add_include_file w2 p1 vertexIncludePath = .ok (some vertexSource, w3) ∧
    add_include_file w3 p2 fragmentIncludePath = .ok (some fragmentSource, w4)

/-- Blocks allocated between `w` and `w'` have each been freed exactly once, and the blocks
of `w` are untouched. -/
def HeapReleased (w w' : World) : Prop :=
  w.next ≤ w'.next ∧ (∀ x, x < w.next → w'.heap x = w.heap x) ∧
  (∀ x, w.next ≤ x → x < w'.next → (w'.heap x).frees = 1)

/-- Number of `glCreateShader` requests that were answered with `id`. -/
def shaderCreations (calls : List GLCall) (id : Nat) : Nat :=
  calls.countP (fun c => c = .createShader .vertex id ∨ c = .createShader .fragment id ∨
    c = .createShader .compute id)

/-- Number of `glDeleteShader(id)` requests. -/
def shaderDeletions (calls : List GLCall) (id : Nat) : Nat :=
  calls.count (.deleteShader id)

/-- Between `w` and `w'` every stage object id was deleted as often as it was created. -/
def StagesReleased (w w' : World) : Prop :=
  ∃ new, w'.glCalls = w.glCalls ++ new ∧
    ∀ id, shaderCreations new id = shaderDeletions new id

/-! ## Concrete runs -/

/-- A small file system: three sources with a `#version` line, an include file, an empty
file, and a source without `#version`. -/
def demoFiles (path : String) : Option File :=
  if path = "vertex.glsl" then some ⟨VERSION ++ [32, 51, 10, 97, 98], 64⟩
  else if path = "fragment.glsl" then some ⟨VERSION ++ [32, 51, 10, 99], 64⟩
  else if path = "common.glsl" then some ⟨[120, 121], 64⟩
  else if path = "empty.glsl" then some ⟨[], 64⟩
  else if path = "plain.glsl" then some ⟨[97, 10], 64⟩
  else none

/-- A fresh process whose driver hands out the ids 1, 2, 3 and reports success. -/
def demoWorld : World :=
  { files := demoFiles, allocPlan := [], junk := fun _ => 0, heap := fun _ => ⟨[], 0⟩,
    next := 0, oobReads := 0, oobWrites := 0, out := [], glIds := [1, 2, 3],
    glStatus := [1, 1, 1], glCalls := [] }

/-- The state after `vertex.glsl` was loaded into block 0. -/
def demoLoaded : World :=
  (load_into_buffer demoWorld "vertex.glsl").2.2

/-- The state after `plain.glsl` was loaded into block 0. -/
def demoPlain : World :=
  (load_into_buffer demoWorld "plain.glsl").2.2

/-- The world of a call, or `w` itself when the call faults. -/
def worldAfter (w : World) (r : Except Fault (Int × World)) : World :=
  match r with
  | .ok (_, w') => w'
  | .error _ => w

/-- A driver that rejects the fragment stage. -/
def demoFragmentFails : World :=
  { demoWorld with glStatus := [1, 0] }

/-- A driver whose program id is the largest `GLuint`. -/
def demoLargeId : World :=
  { demoWorld with glIds := [1, 2, 4294967295] }

/-- Numeric types instantiated with natural numbers, for concrete runs. -/
def natNumerics : Numerics :=
  ⟨Nat, Nat, Nat, Nat, Nat, Nat, Nat, Nat⟩

/-! ## Lemmas and theorems -/

theorem copyBytes_length (junk : Nat → Byte) (src : List Byte) (n : Nat) :
    ∀ (dst : List Byte) (doff soff : Nat),
      (copyBytes junk src dst doff soff n).length = dst.length := by
  induction n with
  | zero => intro dst doff soff; rfl
  | succ n ih => intro dst doff soff; simp [copyBytes, ih]

theorem copyBytes_getElem? (junk : Nat → Byte) (src : List Byte) (n : Nat) :
    ∀ (dst : List Byte) (doff soff j : Nat),
      (copyBytes junk src dst doff soff n)[j]? =
        if doff ≤ j ∧ j < doff + n ∧ j < dst.length then
          some (peek junk src (soff + (j - doff)))
        else dst[j]? := by
  induction n with
  | zero =>
    intro dst doff soff j
    have : ¬ (doff ≤ j ∧ j < doff + 0 ∧ j < dst.length) := by omega
    rw [copyBytes, if_neg this]
  | succ n ih =>
    intro dst doff soff j
    rw [copyBytes, ih]
    simp only [List.length_set, List.getElem?_set]
    by_cases h1 : doff + 1 ≤ j ∧ j < doff + 1 + n ∧ j < dst.length
    · have h2 : doff ≤ j ∧ j < doff + (n + 1) ∧ j < dst.length := by omega
      have h3 : soff + 1 + (j - (doff + 1)) = soff + (j - doff) := by omega
      rw [if_pos h1, if_pos h2, h3]
    · rw [if_neg h1]
      by_cases h4 : doff = j
      · subst h4
        by_cases h5 : doff < dst.length
        · have h2 : doff ≤ doff ∧ doff < doff + (n + 1) ∧ doff < dst.length := by omega
          simp [h5, h2]
        · have h2 : ¬ (doff ≤ doff ∧ doff < doff + (n + 1) ∧ doff < dst.length) := by omega
          rw [if_neg h2]
          simp [h5]
          omega
      · have h2 : ¬ (doff ≤ j ∧ j < doff + (n + 1) ∧ j < dst.length) := by omega
        simp [h4, h2]

/-- The string `s` followed by its terminator is measured as `s.length`. -/
theorem strlenBytes_append (s rest : List Byte) (hs : 0 ∉ s) :
    strlenBytes (s ++ 0 :: rest) = some s.length := by
  induction s with
  | nil => simp [strlenBytes]
  | cons c t ih =>
    have hc : c ≠ 0 := fun h => hs (by simp [h])
    have ht : 0 ∉ t := fun h => hs (by simp [h])
    simp [strlenBytes, hc, ih ht]

theorem strstr_none (s needle : List Byte) (h : strstr s needle = none) :
    ∀ k, ¬ needle <+: s.drop k := by
  induction s with
  | nil =>
    intro k
    simp only [strstr] at h
    split at h
    · simp at h
    · simpa using ‹¬ needle = []›
  | cons c t ih =>
    rw [strstr] at h
    split at h
    · simp at h
    · rename_i hp
      simp only [Option.map_eq_none'] at h
      intro k
      cases k with
      | zero => simpa [List.isPrefixOf_iff_prefix] using hp
      | succ k => simpa using ih h k

theorem strstr_some (s needle : List Byte) (v : Nat) (h : strstr s needle = some v) :
    FirstOccurrence needle s v := by
  induction s generalizing v with
  | nil =>
    simp only [strstr] at h
    split at h
    · rename_i hn
      simp at h
      subst h; subst hn
      exact ⟨by simp, by intro k hk; omega⟩
    · simp at h
  | cons c t ih =>
    rw [strstr] at h
    split at h
    · rename_i hp
      simp at h
      subst h
      exact ⟨by simpa [List.isPrefixOf_iff_prefix] using hp, by intro k hk; omega⟩
    · rename_i hp
      simp only [Option.map_eq_some'] at h
      obtain ⟨m, hm, rfl⟩ := h
      obtain ⟨h1, h2⟩ := ih m hm
      refine ⟨by simpa using h1, ?_⟩
      intro k hk
      cases k with
      | zero => simpa [List.isPrefixOf_iff_prefix] using hp
      | succ k => simpa using h2 k (by omega)

theorem firstOccurrence_unique (needle s : List Byte) (v v' : Nat)
    (h : FirstOccurrence needle s v) (h' : FirstOccurrence needle s v') : v = v' := by
  rcases Nat.lt_trichotomy v v' with hlt | heq | hgt
  · exact absurd h.1 (h'.2 v hlt)
  · exact heq
  · exact absurd h'.1 (h.2 v' hgt)

theorem strstr_of_firstOccurrence (s needle : List Byte) (v : Nat)
    (h : FirstOccurrence needle s v) : strstr s needle = some v := by
  cases hres : strstr s needle with
  | none => exact absurd h.1 (strstr_none s needle hres v)
  | some v' => rw [firstOccurrence_unique needle s v v' h (strstr_some s needle v' hres)]

theorem peek_string (junk : Nat → Byte) (s rest : List Byte) (k : Nat) (hk : k < s.length) :
    peek junk (s ++ 0 :: rest) k = s[k] := by
  simp [peek, List.getElem?_append_left, hk]

theorem peek_terminator (junk : Nat → Byte) (s rest : List Byte) :
    peek junk (s ++ 0 :: rest) s.length = 0 := by
  have h : (s ++ 0 :: rest)[s.length]? = some 0 := by
    rw [List.getElem?_append_right (Nat.le_refl _)]
    simp
  simp only [peek, h]

theorem splice_bytes (junk : Nat → Byte) (s rest inc irest D0 : List Byte) (j : Nat)
    (hj : j < s.length) (hD : D0.length = s.length + inc.length + 1) :
    copyBytes junk (s ++ 0 :: rest)
      (copyBytes junk (inc ++ 0 :: irest)
        (copyBytes junk (s ++ 0 :: rest) D0 0 0 (j + 1)) (j + 1) 0 inc.length)
      (j + 1 + inc.length) (j + 1) (s.length - j + 1)
      = s.take (j + 1) ++ inc ++ s.drop (j + 1) ++ [0] := by
  apply List.ext_getElem?
  intro x
  rw [copyBytes_getElem?, copyBytes_getElem?, copyBytes_getElem?]
  simp only [copyBytes_length, hD]
  have hlen : (List.take (j + 1) s).length = j + 1 := by simp; omega
  by_cases h1 : x < j + 1
  · have c3 : ¬ (j + 1 + inc.length ≤ x ∧ x < j + 1 + inc.length + (s.length - j + 1) ∧
        x < s.length + inc.length + 1) := by omega
    have c2 : ¬ (j + 1 ≤ x ∧ x < j + 1 + inc.length ∧ x < s.length + inc.length + 1) := by omega
    have c1 : 0 ≤ x ∧ x < 0 + (j + 1) ∧ x < s.length + inc.length + 1 := by omega
    rw [if_neg c3, if_neg c2, if_pos c1]
    have hx : x < s.length := by omega
    have e : 0 + (x - 0) = x := by omega
    rw [e, peek_string junk s rest x hx]
    rw [List.append_assoc, List.append_assoc, List.getElem?_append_left (by omega)]
    rw [List.getElem?_take_of_lt h1, List.getElem?_eq_getElem hx]
  · by_cases h2 : x < j + 1 + inc.length
    · have c3 : ¬ (j + 1 + inc.length ≤ x ∧ x < j + 1 + inc.length + (s.length - j + 1) ∧
          x < s.length + inc.length + 1) := by omega
      have c2 : j + 1 ≤ x ∧ x < j + 1 + inc.length ∧ x < s.length + inc.length + 1 := by omega
      rw [if_neg c3, if_pos c2]
      have hx : x - (j + 1) < inc.length := by omega
      have e : 0 + (x - (j + 1)) = x - (j + 1) := by omega
      rw [e, peek_string junk inc irest _ hx]
      rw [List.append_assoc, List.append_assoc, List.getElem?_append_right (by omega), hlen,
        List.getElem?_append_left hx, List.getElem?_eq_getElem hx]
    · by_cases h3 : x < s.length + inc.length + 1
      · have c3 : j + 1 + inc.length ≤ x ∧ x < j + 1 + inc.length + (s.length - j + 1) ∧
            x < s.length + inc.length + 1 := by omega
        rw [if_pos c3]
        rw [List.append_assoc, List.append_assoc, List.getElem?_append_right (by omega), hlen,
          List.getElem?_append_right (by omega)]
        by_cases h4 : x < s.length + inc.length
        · have hx : j + 1 + (x - (j + 1 + inc.length)) < s.length := by omega
          rw [peek_string junk s rest _ hx]
          rw [List.getElem?_append_left (by simp; omega), List.getElem?_drop]
          rw [List.getElem?_eq_getElem (by omega)]
          congr 2
          omega
        · have hx : j + 1 + (x - (j + 1 + inc.length)) = s.length := by omega
          rw [hx, peek_terminator]
          rw [List.getElem?_append_right (by simp; omega)]
          have : x - (j + 1) - inc.length - (List.drop (j + 1) s).length = 0 := by
            simp; omega
          rw [this]
          rfl
      · have c3 : ¬ (j + 1 + inc.length ≤ x ∧ x < j + 1 + inc.length + (s.length - j + 1) ∧
            x < s.length + inc.length + 1) := by omega
        have c2 : ¬ (j + 1 ≤ x ∧ x < j + 1 + inc.length ∧ x < s.length + inc.length + 1) := by
          omega
        have c1 : ¬ (0 ≤ x ∧ x < 0 + (j + 1) ∧ x < s.length + inc.length + 1) := by omega
        rw [if_neg c3, if_neg c2, if_neg c1]
        rw [List.getElem?_eq_none (by omega), List.getElem?_eq_none (by simp; omega)]

theorem setBlock_setBlock (h : Nat → Block) (b : Nat) (x y : Block) :
    setBlock (setBlock h b x) b y = setBlock h b y := by
  funext k
  simp only [setBlock]
  split <;> rfl

theorem setBlock_same (h : Nat → Block) (b : Nat) (x : Block) : setBlock h b x b = x := by
  simp [setBlock]

theorem setBlock_other (h : Nat → Block) (b k : Nat) (x : Block) (hk : k ≠ b) :
    setBlock h b x k = h k := by
  simp [setBlock, hk]

theorem outside_inside (len off n : Nat) (h : off + n ≤ len) : outside len off n = 0 := by
  simp only [outside]; omega

theorem copyBytes_file (junk : Nat → Byte) (content : List Byte) :
    copyBytes junk content (List.replicate (content.length + 1) 0) 0 0 content.length
      = content ++ [0] := by
  apply List.ext_getElem?
  intro x
  rw [copyBytes_getElem?]
  simp only [List.length_replicate]
  by_cases h1 : x < content.length
  · have c : 0 ≤ x ∧ x < 0 + content.length ∧ x < content.length + 1 := by omega
    have e : 0 + (x - 0) = x := by omega
    rw [if_pos c, e, List.getElem?_append_left h1]
    simp [peek, List.getElem?_eq_getElem h1]
  · have c : ¬ (0 ≤ x ∧ x < 0 + content.length ∧ x < content.length + 1) := by omega
    rw [if_neg c, List.getElem?_append_right (by omega)]
    by_cases h2 : x = content.length
    · subst h2; simp
    · rw [List.getElem?_eq_none (by simp; omega), List.getElem?_eq_none (by simp; omega)]

theorem allocate_some (w : World) (init : List Byte) (b : Nat) (w' : World)
    (h : allocate w init = (some b, w')) :
    w.allocPlan.head? ≠ some false ∧ b = w.next ∧
      w' = { w with allocPlan := w.allocPlan.tail, heap := setBlock w.heap w.next ⟨init, 0⟩,
                    next := w.next + 1 } := by
  unfold allocate at h
  split at h
  · simp at h
  · rename_i hp
    simp only [Prod.mk.injEq, Option.some.injEq] at h
    refine ⟨?_, h.1.symm, h.2.symm⟩
    intro hh
    cases hpl : w.allocPlan with
    | nil => simp [hpl] at hh
    | cons a t =>
      simp [hpl] at hh
      exact hp t (by rw [hpl, hh])

theorem allocate_none (w : World) (init : List Byte) (w' : World)
    (h : allocate w init = (none, w')) :
    w.allocPlan.head? = some false ∧ w' = { w with allocPlan := w.allocPlan.tail } := by
  unfold allocate at h
  split at h
  · rename_i plan hp
    simp only [Prod.mk.injEq, true_and] at h
    simp [hp, ← h]
  · simp at h

theorem allocate_of_plan (w : World) (init : List Byte) (h : w.allocPlan.head? ≠ some false) :
    allocate w init = (some w.next,
      { w with allocPlan := w.allocPlan.tail, heap := setBlock w.heap w.next ⟨init, 0⟩,
               next := w.next + 1 }) := by
  unfold allocate
  split
  · rename_i plan hp
    simp [hp] at h
  · rfl

theorem load_into_buffer_true (w : World) (path : String) (p : Ptr) (w' : World)
    (h : load_into_buffer w path = (true, p, w')) :
    ∃ f, w.files path = some f ∧ f.content ≠ [] ∧ f.content.length ≤ f.readLimit ∧
      w.allocPlan.head? ≠ some false ∧ p = some w.next ∧ w' = loaded w f := by
  unfold load_into_buffer fopen at h
  split at h
  · rename_i file hf
    simp only [calloc] at h
    split at h
    · rename_i b w1 hc
      obtain ⟨hplan, hb, hw1⟩ := allocate_some _ _ _ _ hc
      simp only [fread] at h
      split at h
      · rename_i hz
        simp at h
      · rename_i hz
        split at h
        · rename_i hn
          simp only [Prod.mk.injEq, true_and] at h
          have hne : file.content.length ≠ 0 := by
            intro h0; exact hz (Or.inl h0)
          have hle : file.content.length ≤ file.readLimit := by
            by_contra hcon
            have : min (file.content.length * 1) (min file.readLimit file.content.length)
                < file.content.length := by
              rw [Nat.mul_one]; omega
            rw [Nat.div_eq_of_lt this] at hn
            omega
          refine ⟨file, hf, ?_, hle, hplan, ?_, ?_⟩
          · intro h0; apply hne; simp [h0]
          · rw [← h.1, hb]
          · rw [← h.2]
            have hgot : min (file.content.length * 1) (min file.readLimit file.content.length)
                = file.content.length := by
              rw [Nat.mul_one]; omega
            subst hb
            subst hw1
            simp only [hgot, setBlock_same, setBlock_setBlock, List.length_replicate,
              copyBytes_file, loaded]
            rw [outside_inside _ _ _ (by omega)]
            rfl
        · simp at h
    · simp at h
  · simp at h

theorem scanNewline_found (mem : List Byte) (baseLen j : Nat)
    (hj : mem[j]? = some NEWLINE) (hjb : j < baseLen) (hb : baseLen ≤ 2 ^ 32) :
    ∀ (fuel i : Nat), i ≤ j → j - i < fuel →
      (∀ k, i ≤ k → k < j → ∃ c, mem[k]? = some c ∧ c ≠ NEWLINE) →
      scanNewline mem baseLen fuel i = .ok (some j) := by
  intro fuel
  induction fuel with
  | zero => intro i _ h; omega
  | succ fuel ih =>
    intro i hij hf hk
    rw [scanNewline]
    by_cases hi : i = j
    · subst hi
      simp [hj]
    · obtain ⟨c, hc, hcn⟩ := hk i (Nat.le_refl _) (by omega)
      have hmod : (i + 1) % 2 ^ 32 = i + 1 := Nat.mod_eq_of_lt (by omega)
      simp only [hc, hcn, if_false, hmod]
      rw [if_neg (by omega)]
      exact ih (i + 1) (by omega) (by omega) (fun k h1 h2 => hk k (by omega) h2)

theorem scanNewline_truncated (mem : List Byte) (baseLen : Nat) (hb : baseLen < 2 ^ 32) :
    ∀ (fuel i : Nat), i < baseLen → baseLen - i ≤ fuel →
      (∀ k, i ≤ k → k < baseLen → ∃ c, mem[k]? = some c ∧ c ≠ NEWLINE) →
      scanNewline mem baseLen fuel i = .ok none := by
  intro fuel
  induction fuel with
  | zero => intro i _ h; omega
  | succ fuel ih =>
    intro i hi hf hk
    rw [scanNewline]
    obtain ⟨c, hc, hcn⟩ := hk i (Nat.le_refl _) hi
    have hmod : (i + 1) % 2 ^ 32 = i + 1 := Nat.mod_eq_of_lt (by omega)
    simp only [hc, hcn, if_false, hmod]
    by_cases hlast : i + 1 ≥ baseLen
    · rw [if_pos hlast]
    · rw [if_neg hlast]
      exact ih (i + 1) (by omega) (by omega) (fun k h1 h2 => hk k (by omega) h2)

theorem mem_string_getElem? (s rest : List Byte) (k : Nat) (hk : k < s.length) :
    (s ++ 0 :: rest)[k]? = s[k]? := by
  rw [List.getElem?_append_left hk]

theorem take_string (s rest : List Byte) : (s ++ 0 :: rest).take s.length = s := by
  simp

theorem strlen_string (w : World) (b : Nat) (s rest : List Byte) (hl : w.live b = true)
    (hb : (w.heap b).bytes = s ++ 0 :: rest) (hs : 0 ∉ s) :
    strlen w (some b) = .ok s.length := by
  simp [strlen, hl, hb, strlenBytes_append s rest hs]

theorem memcpy_live (w : World) (d s doff soff n : Nat) (hd : w.live d = true)
    (hs : w.live s = true) :
    memcpy w (some d) doff (some s) soff n =
      .ok { w with
        heap := setBlock w.heap d
          { w.heap d with bytes := copyBytes w.junk (w.heap s).bytes (w.heap d).bytes doff soff n },
        oobReads := w.oobReads + outside (w.heap s).bytes.length soff n,
        oobWrites := w.oobWrites + outside (w.heap d).bytes.length doff n } := by
  simp [memcpy, hd, hs]

theorem live_iff (w : World) (b : Nat) :
    w.live b = true ↔ b < w.next ∧ (w.heap b).frees = 0 := by
  simp [World.live]

theorem add_include_file_splice (w : World) (b : Nat) (path : String) (f : File)
    (s rest inc irest : List Byte) (v j : Nat)
    (hlive : w.live b = true) (hbase : (w.heap b).bytes = s ++ 0 :: rest) (hs : 0 ∉ s)
    (hlen : s.length < 2 ^ 32)
    (hv : FirstOccurrence VERSION s v) (hvj : v ≤ j) (hnl : s[j]? = some NEWLINE)
    (hfirst : ∀ k, v ≤ k → k < j → s[k]? ≠ some NEWLINE)
    (hload : load_into_buffer w path = (true, some w.next, loaded w f))
    (hinc : f.content ++ [0] = inc ++ 0 :: irest) (hi : 0 ∉ inc)
    (hmalloc : w.allocPlan.tail.head? ≠ some false) :
    ∃ w', add_include_file w (some b) (some path) = .ok (some (w.next + 1), w') ∧
      w'.next = w.next + 2 ∧
      w'.heap (w.next + 1) = ⟨s.take (j + 1) ++ inc ++ s.drop (j + 1) ++ [0], 0⟩ ∧
      w'.heap b = ⟨s ++ 0 :: rest, 1⟩ ∧
      w'.heap w.next = ⟨f.content ++ [0], 1⟩ ∧
      (∀ x, x ≠ b → x ≠ w.next → x ≠ w.next + 1 → w'.heap x = w.heap x) ∧
      w'.oobWrites = w.oobWrites + 1 ∧
      w'.oobReads = w.oobReads + (1 - rest.length) ∧
      w'.out = w.out ∧ w'.glCalls = w.glCalls ∧ w'.glIds = w.glIds ∧
      w'.glStatus = w.glStatus ∧ w'.junk = w.junk ∧ w'.files = w.files ∧
      w'.allocPlan = w.allocPlan.tail.tail := by
  obtain ⟨hbn, hbf⟩ := (live_iff w b).1 hlive
  have hjl : j < s.length := by
    by_contra hcon
    rw [List.getElem?_eq_none (by omega)] at hnl
    simp at hnl
  have hb1 : b ≠ w.next := by omega
  have hb2 : b ≠ w.next + 1 := by omega
  have hn12 : w.next ≠ w.next + 1 := by omega
  -- state after the include load
  have hL1 : (loaded w f).live b = true := by
    rw [live_iff]; simp [loaded, setBlock, hb1, hbf]; omega
  have hL2 : (loaded w f).live w.next = true := by
    rw [live_iff]; simp [loaded, setBlock]
  have hB1 : ((loaded w f).heap b).bytes = s ++ 0 :: rest := by
    simp [loaded, setBlock, hb1, hbase]
  have hB2 : ((loaded w f).heap w.next).bytes = inc ++ 0 :: irest := by
    simp [loaded, setBlock, hinc]
  have hS1 := strlen_string _ _ _ _ hL1 hB1 hs
  have hS2 := strlen_string _ _ _ _ hL2 hB2 hi
  have hstr : strstr s VERSION = some v := strstr_of_firstOccurrence _ _ _ hv
  have hvm : v % 2 ^ 32 = v := Nat.mod_eq_of_lt (by omega)
  have hjm : (j + 1) % 2 ^ 32 = j + 1 := Nat.mod_eq_of_lt (by omega)
  have hscan : scanNewline (s ++ 0 :: rest) s.length (2 ^ 32) v = .ok (some j) := by
    apply scanNewline_found _ _ _ _ hjl (by omega) _ _ hvj (by omega)
    · intro k h1 h2
      rw [mem_string_getElem? s rest k (by omega)]
      have hk := hfirst k h1 h2
      rw [List.getElem?_eq_getElem (by omega)] at hk ⊢
      exact ⟨_, rfl, fun h => hk (by rw [h])⟩
    · rw [mem_string_getElem? s rest j hjl]; exact hnl
  have hplan : (loaded w f).allocPlan.head? ≠ some false := hmalloc
  have hM := allocate_of_plan (loaded w f)
    ((List.range (s.length + inc.length + 1)).map (loaded w f).junk) hplan
  have hln : (loaded w f).next = w.next + 1 := rfl
  unfold add_include_file
  simp only [hload, hS1, hS2, hB1, take_string, hstr, hvm, hscan, hjm, malloc, hM, hln]
  have hlc1 : ∀ (W : World), W.next = w.next + 2 → (W.heap (w.next + 1)).frees = 0 →
      W.live (w.next + 1) = true := by
    intro W h1 h2; rw [live_iff]; omega
  have hlb : ∀ (W : World), W.next = w.next + 2 → (W.heap b).frees = 0 →
      W.live b = true := by
    intro W h1 h2; rw [live_iff]; omega
  have hli : ∀ (W : World), W.next = w.next + 2 → (W.heap w.next).frees = 0 →
      W.live w.next = true := by
    intro W h1 h2; rw [live_iff]; omega
  rw [memcpy_live _ _ _ _ _ _ (hlc1 _ (by simp [loaded]) (by simp [loaded, setBlock]))
    (hlb _ (by simp [loaded]) (by simp [loaded, setBlock, hb1, hb2, hbf]))]
  simp only []
  rw [memcpy_live _ _ _ _ _ _ (hlc1 _ (by simp [loaded]) (by simp [loaded, setBlock]))
    (hli _ (by simp [loaded]) (by simp [loaded, setBlock, hn12]))]
  simp only []
  rw [memcpy_live _ _ _ _ _ _ (hlc1 _ (by simp [loaded]) (by simp [loaded, setBlock]))
    (hlb _ (by simp [loaded]) (by simp [loaded, setBlock, hb1, hb2, hbf]))]
  simp only []
  refine ⟨_, rfl, ?_, ?_, ?_, ?_, ?_, ?_, ?_, ?_, ?_, ?_, ?_, ?_, ?_, ?_⟩
  · simp [free, loaded]
  · simp only [free, loaded, setBlock, hb1, hb2, hn12, hb1.symm, hb2.symm, hn12.symm, hbase, hinc,
      if_true, if_false]
    rw [splice_bytes w.junk s rest inc irest _ j hjl (by simp)]
  · simp only [free, loaded, setBlock, hb1, hb2, hn12, hb1.symm, hb2.symm, hn12.symm, hbase, hinc,
      if_true, if_false]
    rw [← hbase, hbf]
  · simp only [free, loaded, setBlock, hb1, hb2, hn12, hb1.symm, hb2.symm, hn12.symm, hbase, hinc,
      if_true, if_false]
  · intro x h1 h2 h3
    simp only [free, loaded, setBlock, h1, h2, h3, if_false]
  · simp only [free, loaded, setBlock, hb1, hb2, hn12, hb1.symm, hb2.symm, hn12.symm, hbase, hinc,
      if_true, if_false, outside, copyBytes_length, List.length_map, List.length_range]
    omega
  · simp only [free, loaded, setBlock, hb1, hb2, hn12, hb1.symm, hb2.symm, hn12.symm, hbase, hinc,
      if_true, if_false, outside, copyBytes_length, List.length_map, List.length_range,
      List.length_append, List.length_cons]
    omega
  all_goals rfl

theorem infix_iff_drop (needle s : List Byte) :
    needle <:+: s ↔ ∃ k, needle <+: s.drop k := by
  constructor
  · rintro ⟨a, t, rfl⟩
    exact ⟨a.length, t, by simp⟩
  · rintro ⟨k, t, ht⟩
    refine ⟨s.take k, t, ?_⟩
    rw [List.append_assoc, ht, List.take_append_drop]

theorem strstr_none_iff (s needle : List Byte) :
    strstr s needle = none ↔ ¬ needle <:+: s := by
  rw [infix_iff_drop]
  constructor
  · intro h ⟨k, hk⟩
    exact strstr_none s needle h k hk
  · intro h
    cases hres : strstr s needle with
    | none => rfl
    | some v => exact absurd ⟨v, (strstr_some s needle v hres).1⟩ h

/-- Facts about the state right after the include file was loaded. -/
theorem after_load (w : World) (b : Nat) (f : File) (s rest inc irest : List Byte)
    (hlive : w.live b = true) (hbase : (w.heap b).bytes = s ++ 0 :: rest) (hs : 0 ∉ s)
    (hinc : f.content ++ [0] = inc ++ 0 :: irest) (hi : 0 ∉ inc) :
    strlen (loaded w f) (some b) = .ok s.length ∧
      strlen (loaded w f) (some w.next) = .ok inc.length ∧
      ((loaded w f).heap b).bytes = s ++ 0 :: rest := by
  obtain ⟨hbn, hbf⟩ := (live_iff w b).1 hlive
  have hb1 : b ≠ w.next := by omega
  have hL1 : (loaded w f).live b = true := by
    rw [live_iff]; simp [loaded, setBlock, hb1, hbf]; omega
  have hL2 : (loaded w f).live w.next = true := by
    rw [live_iff]; simp [loaded, setBlock]
  have hB1 : ((loaded w f).heap b).bytes = s ++ 0 :: rest := by
    simp [loaded, setBlock, hb1, hbase]
  have hB2 : ((loaded w f).heap w.next).bytes = inc ++ 0 :: irest := by
    simp [loaded, setBlock, hinc]
  exact ⟨strlen_string _ _ _ _ hL1 hB1 hs, strlen_string _ _ _ _ hL2 hB2 hi, hB1⟩

theorem add_include_file_missing (w : World) (b : Nat) (path : String) (f : File)
    (s rest inc irest : List Byte)
    (hlive : w.live b = true) (hbase : (w.heap b).bytes = s ++ 0 :: rest) (hs : 0 ∉ s)
    (hload : load_into_buffer w path = (true, some w.next, loaded w f))
    (hinc : f.content ++ [0] = inc ++ 0 :: irest) (hi : 0 ∉ inc)
    (hmiss : ¬ VERSION <:+: s) :
    add_include_file w (some b) (some path) =
      .ok (none, free (free (printf (loaded w f)
        "ERROR - SHADER SOURCE FILE DID NOT CONTAIN A #version") (some b)) (some w.next)) := by
  obtain ⟨hS1, hS2, hB1⟩ := after_load w b f s rest inc irest hlive hbase hs hinc hi
  have hstr := (strstr_none_iff s VERSION).2 hmiss
  unfold add_include_file
  simp only [hload, hS1, hS2, hB1, take_string, hstr]

theorem add_include_file_truncated (w : World) (b : Nat) (path : String) (f : File)
    (s rest inc irest : List Byte) (v : Nat)
    (hlive : w.live b = true) (hbase : (w.heap b).bytes = s ++ 0 :: rest) (hs : 0 ∉ s)
    (hlen : s.length < 2 ^ 32)
    (hload : load_into_buffer w path = (true, some w.next, loaded w f))
    (hinc : f.content ++ [0] = inc ++ 0 :: irest) (hi : 0 ∉ inc)
    (hv : FirstOccurrence VERSION s v)
    (hnone : ∀ k, v ≤ k → k < s.length → s[k]? ≠ some NEWLINE) :
    add_include_file w (some b) (some path) =
      .ok (none, free (free (printf (loaded w f)
        "ERROR - END OF SHADER SOURCE FILE REACHED BEFORE END OF #version WAS FOUND")
        (some b)) (some w.next)) := by
  obtain ⟨hS1, hS2, hB1⟩ := after_load w b f s rest inc irest hlive hbase hs hinc hi
  have hstr : strstr s VERSION = some v := strstr_of_firstOccurrence _ _ _ hv
  have hvl : v < s.length := by
    obtain ⟨t, ht⟩ := hv.1
    have := congrArg List.length ht
    simp [VERSION] at this
    omega
  have hvm : v % 2 ^ 32 = v := Nat.mod_eq_of_lt (by omega)
  have hscan : scanNewline (s ++ 0 :: rest) s.length (2 ^ 32) v = .ok none := by
    apply scanNewline_truncated _ _ hlen _ _ hvl (by omega)
    intro k h1 h2
    rw [mem_string_getElem? s rest k h2]
    have hk := hnone k h1 h2
    rw [List.getElem?_eq_getElem h2] at hk ⊢
    exact ⟨_, rfl, fun h => hk (by rw [h])⟩
  unfold add_include_file
  simp only [hload, hS1, hS2, hB1, take_string, hstr, hvm, hscan]

theorem add_include_file_nomem (w : World) (b : Nat) (path : String) (f : File)
    (s rest inc irest : List Byte) (v j : Nat)
    (hlive : w.live b = true) (hbase : (w.heap b).bytes = s ++ 0 :: rest) (hs : 0 ∉ s)
    (hlen : s.length < 2 ^ 32)
    (hv : FirstOccurrence VERSION s v) (hvj : v ≤ j) (hnl : s[j]? = some NEWLINE)
    (hfirst : ∀ k, v ≤ k → k < j → s[k]? ≠ some NEWLINE)
    (hload : load_into_buffer w path = (true, some w.next, loaded w f))
    (hinc : f.content ++ [0] = inc ++ 0 :: irest) (hi : 0 ∉ inc)
    (hmalloc : w.allocPlan.tail.head? = some false) :
    add_include_file w (some b) (some path) = .error .nullDeref := by
  obtain ⟨hS1, hS2, hB1⟩ := after_load w b f s rest inc irest hlive hbase hs hinc hi
  have hjl : j < s.length := by
    by_contra hcon
    rw [List.getElem?_eq_none (by omega)] at hnl
    simp at hnl
  have hstr : strstr s VERSION = some v := strstr_of_firstOccurrence _ _ _ hv
  have hvm : v % 2 ^ 32 = v := Nat.mod_eq_of_lt (by omega)
  have hscan : scanNewline (s ++ 0 :: rest) s.length (2 ^ 32) v = .ok (some j) := by
    apply scanNewline_found _ _ _ _ hjl (by omega) _ _ hvj (by omega)
    · intro k h1 h2
      rw [mem_string_getElem? s rest k (by omega)]
      have hk := hfirst k h1 h2
      rw [List.getElem?_eq_getElem (by omega)] at hk ⊢
      exact ⟨_, rfl, fun h => hk (by rw [h])⟩
    · rw [mem_string_getElem? s rest j hjl]; exact hnl
  have hM : ∀ init, allocate (loaded w f) init =
      (none, { loaded w f with allocPlan := (loaded w f).allocPlan.tail }) := by
    intro init
    unfold allocate
    have hp : (loaded w f).allocPlan.head? = some false := hmalloc
    split
    · rename_i plan hpl
      simp [hpl]
    · rename_i hpl
      exfalso
      cases hq : (loaded w f).allocPlan with
      | nil => simp [hq] at hp
      | cons a t =>
        simp [hq] at hp
        exact hpl t (by rw [hq, hp])
  unfold add_include_file
  simp only [hload, hS1, hS2, hB1, take_string, hstr, hvm, hscan, malloc, hM, memcpy]

/-- Unpack the hypotheses "base holds `s`" and "the include loads and holds `inc`". -/
theorem unpack_inputs (w : World) (base includeSource : Ptr) (path : String)
    (s inc : List Byte) (w1 : World)
    (hbase : HoldsString w base s)
    (hload : load_into_buffer w path = (true, includeSource, w1))
    (hinc : HoldsString w1 includeSource inc) :
    ∃ b rest f irest, base = some b ∧ w.live b = true ∧ (w.heap b).bytes = s ++ 0 :: rest ∧
      0 ∉ s ∧ includeSource = some w.next ∧ w1 = loaded w f ∧
      load_into_buffer w path = (true, some w.next, loaded w f) ∧
      f.content ++ [0] = inc ++ 0 :: irest ∧ 0 ∉ inc := by
  obtain ⟨b, rest, rfl, hl, hb, hs⟩ := hbase
  obtain ⟨f, -, -, -, -, hp, hw1⟩ := load_into_buffer_true w path includeSource w1 hload
  obtain ⟨i, irest, hi1, -, hi3, hi4⟩ := hinc
  subst hp
  subst hw1
  simp only [Option.some.injEq] at hi1
  subst hi1
  refine ⟨b, rest, f, irest, rfl, hl, hb, hs, rfl, rfl, hload, ?_, hi4⟩
  simpa [loaded, setBlock] using hi3

/-- C1: splice: for a base buffer holding a string `s` whose first `#version` is at `v` and whose
first newline at or after `v` is at `j`, and an include file that loads and holds the string
`inc`, `add_include_file` returns a live buffer holding exactly `s[0..j]`, then `inc`, then the
rest of `s`; its `strlen` is `len s + len inc`. -/
theorem add_include_file_splices (w : World) (base includeSource : Ptr) (path : String)
    (s inc : List Byte) (v j : Nat) (w1 : World)
    (hbase : HoldsString w base s) (hlen : s.length < 2 ^ 32)
    (hv : FirstOccurrence VERSION s v) (hvj : v ≤ j) (hnl : s[j]? = some NEWLINE)
    (hfirst : ∀ k, v ≤ k → k < j → s[k]? ≠ some NEWLINE)
    (hload : load_into_buffer w path = (true, includeSource, w1))
    (hinc : HoldsString w1 includeSource inc)
    (hmalloc : w1.allocPlan.head? ≠ some false) :
    ∃ combined w', add_include_file w base (some path) = .ok (combined, w') ∧
      HoldsString w' combined (s.take (j + 1) ++ inc ++ s.drop (j + 1)) ∧
      strlen w' combined = .ok (s.length + inc.length) := by
  obtain ⟨b, rest, f, irest, rfl, hl, hb, hs, rfl, rfl, hload', hi, hi0⟩ :=
    unpack_inputs w base includeSource path s inc w1 hbase hload hinc
  obtain ⟨w', hres, hnext, hc, -⟩ := add_include_file_splice w b path f s rest inc irest v j
    hl hb hs hlen hv hvj hnl hfirst hload' hi hi0 hmalloc
  have hjl : j < s.length := by
    by_contra hcon
    rw [List.getElem?_eq_none (by omega)] at hnl
    simp at hnl
  have hlive : w'.live (w.next + 1) = true := by
    rw [live_iff, hc]; simp; omega
  have hzero : 0 ∉ s.take (j + 1) ++ inc ++ s.drop (j + 1) := by
    simp only [List.mem_append, not_or]
    exact ⟨⟨fun h => hs (List.mem_of_mem_take h), hi0⟩, fun h => hs (List.mem_of_mem_drop h)⟩
  have hbytes : (w'.heap (w.next + 1)).bytes
      = (s.take (j + 1) ++ inc ++ s.drop (j + 1)) ++ 0 :: [] := by
    rw [hc]
  refine ⟨some (w.next + 1), w', hres, ⟨w.next + 1, [], rfl, hlive, hbytes, hzero⟩, ?_⟩
  rw [strlen_string w' (w.next + 1) _ [] hlive hbytes hzero]
  congr 1
  simp only [List.length_append, List.length_take, List.length_drop]
  omega

theorem exists_string (l : List Byte) :
    ∃ inc irest, l ++ [0] = inc ++ 0 :: irest ∧ 0 ∉ inc := by
  induction l with
  | nil => exact ⟨[], [], rfl, by simp⟩
  | cons c t ih =>
    by_cases hc : c = 0
    · exact ⟨[], t ++ [0], by simp [hc], by simp⟩
    · obtain ⟨inc, irest, h1, h2⟩ := ih
      refine ⟨c :: inc, irest, by simp [h1], ?_⟩
      simp only [List.mem_cons, not_or]
      exact ⟨fun h => hc h.symm, h2⟩

/-- Either the text is absent, or its first occurrence is followed by no newline, or there is
a first newline at or after it. -/
theorem version_cases (s : List Byte) :
    ¬ VERSION <:+: s ∨
    (∃ v, FirstOccurrence VERSION s v ∧ ∀ k, v ≤ k → k < s.length → s[k]? ≠ some NEWLINE) ∨
    (∃ v j, FirstOccurrence VERSION s v ∧ v ≤ j ∧ s[j]? = some NEWLINE ∧
      ∀ k, v ≤ k → k < j → s[k]? ≠ some NEWLINE) := by
  by_cases hin : VERSION <:+: s
  · right
    have hne : strstr s VERSION ≠ none := fun h => (strstr_none_iff s VERSION).1 h hin
    obtain ⟨v, hv⟩ := Option.ne_none_iff_exists'.1 hne
    have hfo := strstr_some s VERSION v hv
    by_cases hex : ∃ j, v ≤ j ∧ s[j]? = some NEWLINE
    · right
      classical
      refine ⟨v, Nat.find hex, hfo, (Nat.find_spec hex).1, (Nat.find_spec hex).2, ?_⟩
      intro k h1 h2 h3
      exact Nat.find_min hex h2 ⟨h1, h3⟩
    · left
      refine ⟨v, hfo, ?_⟩
      intro k h1 _ h3
      exact hex ⟨k, h1, h3⟩
  · left; exact hin

/-- C3: given an include file that loads, `add_include_file` returns NULL exactly when the base
string has no `#version`, or has one with no newline at or after its first occurrence; in
that case the base and include buffers have each been freed once, the include buffer is the
only block allocated by the call, and the matching diagnostic was printed. -/
theorem add_include_file_fails_iff (w : World) (base includeSource : Ptr) (path : String)
    (s : List Byte) (w1 : World)
    (hbase : HoldsString w base s) (hlen : s.length < 2 ^ 32)
    (hload : load_into_buffer w path = (true, includeSource, w1)) :
    ((∃ w', add_include_file w base (some path) = .ok (none, w')) ↔
      (¬ VERSION <:+: s ∨
        ∃ v, FirstOccurrence VERSION s v ∧
          ∀ k, v ≤ k → k < s.length → s[k]? ≠ some NEWLINE)) ∧
    (∀ w', add_include_file w base (some path) = .ok (none, w') →
      ∃ b, base = some b ∧ includeSource = some w.next ∧
        (w.heap b).frees = 0 ∧ (w'.heap b).frees = 1 ∧ (w'.heap w.next).frees = 1 ∧
        w'.next = w.next + 1 ∧
        (¬ VERSION <:+: s →
          w'.out = w.out ++ ["ERROR - SHADER SOURCE FILE DID NOT CONTAIN A #version"]) ∧
        (VERSION <:+: s → w'.out = w.out ++
          ["ERROR - END OF SHADER SOURCE FILE REACHED BEFORE END OF #version WAS FOUND"])) := by
  obtain ⟨b, rest, rfl, hl, hb, hs⟩ := hbase
  obtain ⟨f, -, -, -, -, hp, hw1⟩ := load_into_buffer_true w path includeSource w1 hload
  subst hp hw1
  obtain ⟨inc, irest, hi, hi0⟩ := exists_string f.content
  obtain ⟨hbn, hbf⟩ := (live_iff w b).1 hl
  have hb1 : b ≠ w.next := by omega
  have hmissing := add_include_file_missing w b path f s rest inc irest hl hb hs hload hi hi0
  have htrunc := fun v => add_include_file_truncated w b path f s rest inc irest v hl hb hs hlen
    hload hi hi0
  -- the third case never returns NULL
  have hfound : ∀ v j, FirstOccurrence VERSION s v → v ≤ j → s[j]? = some NEWLINE →
      (∀ k, v ≤ k → k < j → s[k]? ≠ some NEWLINE) →
      ∀ w', add_include_file w (some b) (some path) ≠ .ok (none, w') := by
    intro v j hv hvj hnl hfirst w' hres
    by_cases hm : w.allocPlan.tail.head? = some false
    · rw [add_include_file_nomem w b path f s rest inc irest v j hl hb hs hlen hv hvj hnl hfirst
        hload hi hi0 hm] at hres
      simp at hres
    · obtain ⟨w'', hres', -⟩ := add_include_file_splice w b path f s rest inc irest v j
        hl hb hs hlen hv hvj hnl hfirst hload hi hi0 hm
      rw [hres'] at hres
      simp at hres
  have hcontains : ∀ v, FirstOccurrence VERSION s v → VERSION <:+: s := fun v hv =>
    (infix_iff_drop VERSION s).2 ⟨v, hv.1⟩
  refine ⟨⟨?_, ?_⟩, ?_⟩
  · rintro ⟨w', hres⟩
    rcases version_cases s with h | h | ⟨v, j, hv, hvj, hnl, hfirst⟩
    · exact Or.inl h
    · exact Or.inr h
    · exact absurd hres (hfound v j hv hvj hnl hfirst w')
  · rintro (h | ⟨v, hv, hnone⟩)
    · exact ⟨_, hmissing h⟩
    · exact ⟨_, htrunc v hv hnone⟩
  · intro w' hres
    rcases version_cases s with h | ⟨v, hv, hnone⟩ | ⟨v, j, hv, hvj, hnl, hfirst⟩
    · rw [hmissing h] at hres
      simp only [Except.ok.injEq, Prod.mk.injEq, true_and] at hres
      subst hres
      refine ⟨b, rfl, rfl, hbf, ?_, ?_, rfl, fun _ => rfl, fun h' => absurd h' h⟩
      · simp [free, printf, loaded, setBlock, hb1, hb1.symm, hbf]
      · simp [free, printf, loaded, setBlock, hb1, hb1.symm, hbf]
    · rw [htrunc v hv hnone] at hres
      simp only [Except.ok.injEq, Prod.mk.injEq, true_and] at hres
      subst hres
      refine ⟨b, rfl, rfl, hbf, ?_, ?_, rfl, fun h' => absurd (hcontains v hv) h', fun _ => rfl⟩
      · simp [free, printf, loaded, setBlock, hb1, hb1.symm, hbf]
      · simp [free, printf, loaded, setBlock, hb1, hb1.symm, hbf]
    · exact absurd hres (hfound v j hv hvj hnl hfirst w')

theorem owns_congr (w0 w : World) (S T : Finset Nat) (h : Owns w0 w S) (e : S = T) :
    Owns w0 w T := e ▸ h

theorem owns_allocate (w0 w : World) (S : Finset Nat) (h : Owns w0 w S) (init : List Byte)
    (c : Nat) (w' : World) (ha : allocate w init = (some c, w')) :
    c = w.next ∧ c ∉ S ∧ Owns w0 w' (insert c S) := by
  obtain ⟨-, hc, hw⟩ := allocate_some w init c w' ha
  obtain ⟨h1, h2, h3, h4⟩ := h
  subst hc hw
  have hnot : w.next ∉ S := fun hm => by have := (h4 _ hm).2; omega
  refine ⟨rfl, hnot, ?_, ?_, ?_, ?_⟩
  · show w0.next ≤ w.next + 1; omega
  · intro x hx
    show setBlock w.heap w.next _ x = _
    rw [setBlock_other _ _ _ _ (by omega)]
    exact h2 x hx
  · intro x hx1 hx2
    show (setBlock w.heap w.next _ x).frees = _
    by_cases hx : x = w.next
    · subst hx
      simp [setBlock_same]
    · rw [setBlock_other _ _ _ _ hx, h3 x hx1 (by have : x < w.next + 1 := hx2; omega)]
      simp [hx]
  · intro x hx
    show w0.next ≤ x ∧ x < w.next + 1
    rcases Finset.mem_insert.1 hx with rfl | hx
    · omega
    · have := h4 x hx; omega

theorem owns_free (w0 w : World) (S : Finset Nat) (h : Owns w0 w S) (b : Nat) (hb : b ∈ S) :
    Owns w0 (free w (some b)) (S.erase b) := by
  obtain ⟨h1, h2, h3, h4⟩ := h
  obtain ⟨h5, h6⟩ := h4 b hb
  refine ⟨h1, ?_, ?_, ?_⟩
  · intro x hx
    show setBlock w.heap b _ x = _
    rw [setBlock_other _ _ _ _ (by omega)]
    exact h2 x hx
  · intro x hx1 hx2
    show (setBlock w.heap b _ x).frees = _
    by_cases hx : x = b
    · subst hx
      rw [setBlock_same]
      simp [h3 x h5 h6, hb]
    · rw [setBlock_other _ _ _ _ hx, h3 x hx1 hx2]
      simp [hx]
  · intro x hx
    exact h4 x (Finset.mem_of_mem_erase hx)

/-- Overwriting the bytes of an owned block keeps the accounting. -/
theorem owns_write (w0 w : World) (S : Finset Nat) (h : Owns w0 w S) (d : Nat) (hd : d ∈ S)
    (w' : World) (hn : w'.next = w.next)
    (hh : ∃ bytes, w'.heap = setBlock w.heap d { w.heap d with bytes := bytes }) :
    Owns w0 w' S := by
  obtain ⟨h1, h2, h3, h4⟩ := h
  obtain ⟨h5, h6⟩ := h4 d hd
  obtain ⟨bytes, hh⟩ := hh
  refine ⟨by omega, ?_, ?_, ?_⟩
  · intro x hx
    rw [hh, setBlock_other _ _ _ _ (by omega)]
    exact h2 x hx
  · intro x hx1 hx2
    rw [hh]
    by_cases hx : x = d
    · subst hx
      rw [setBlock_same]
      exact h3 x hx1 h6
    · rw [setBlock_other _ _ _ _ hx]
      exact h3 x hx1 (by omega)
  · intro x hx
    have := h4 x hx
    omega

theorem owns_memcpy (w0 w : World) (S : Finset Nat) (h : Owns w0 w S) (d : Nat) (hd : d ∈ S)
    (doff : Nat) (src : Ptr) (soff n : Nat) (w' : World)
    (hm : memcpy w (some d) doff src soff n = .ok w') :
    Owns w0 w' S ∧ SameGL w w' := by
  cases src with
  | none => simp [memcpy] at hm
  | some s =>
    simp only [memcpy] at hm
    split at hm
    · simp only [Except.ok.injEq] at hm
      subst hm
      exact ⟨owns_write w0 w S h d hd _ rfl ⟨_, rfl⟩, rfl, rfl, rfl⟩
    · cases hm

theorem load_into_buffer_owns_true (w0 w : World) (S : Finset Nat) (h : Owns w0 w S)
    (path : String) (p : Ptr) (w' : World) (hl : load_into_buffer w path = (true, p, w')) :
    p = some w.next ∧ w.next ∉ S ∧ Owns w0 w' (insert w.next S) ∧ SameGL w w' := by
  obtain ⟨f, -, -, -, hplan, hp, hw⟩ := load_into_buffer_true w path p w' hl
  have ha := allocate_of_plan w (f.content ++ [0]) hplan
  obtain ⟨-, h2, h3⟩ := owns_allocate w0 w S h _ _ _ ha
  subst hw
  exact ⟨hp, h2, h3, rfl, rfl, rfl⟩

theorem load_into_buffer_owns_false (w0 w : World) (S : Finset Nat) (h : Owns w0 w S)
    (path : String) (p : Ptr) (w' : World) (hl : load_into_buffer w path = (false, p, w')) :
    Owns w0 w' S ∧ SameGL w w' := by
  unfold load_into_buffer fopen at hl
  split at hl
  · rename_i file hf
    simp only [calloc] at hl
    split at hl
    · rename_i b w1 hc
      obtain ⟨hb, hb2, hw1⟩ := owns_allocate w0 w S h _ _ _ hc
      have hsg : SameGL w w1 := by
        obtain ⟨-, -, hw⟩ := allocate_some _ _ _ _ hc
        subst hw; exact ⟨rfl, rfl, rfl⟩
      simp only [fread] at hl
      split at hl
      · simp only [Nat.zero_ne_one, if_false, Prod.mk.injEq, true_and] at hl
        obtain ⟨-, hl⟩ := hl
        subst hl
        have := owns_free w0 _ _ hw1 b (Finset.mem_insert_self _ _)
        rw [Finset.erase_insert hb2] at this
        exact ⟨this, hsg⟩
      · split at hl
        · simp at hl
        · simp only [Prod.mk.injEq, true_and] at hl
          obtain ⟨-, hl⟩ := hl
          subst hl
          refine ⟨owns_congr _ _ _ _ (owns_free w0 _ _ ?_ b (Finset.mem_insert_self _ _))
            (Finset.erase_insert hb2), hsg⟩
          exact owns_write w0 w1 _ hw1 b (Finset.mem_insert_self _ _) _ rfl ⟨_, rfl⟩
    · rename_i w1 hc
      simp only [Prod.mk.injEq] at hl
      obtain ⟨-, -, hl⟩ := hl
      subst hl
      obtain ⟨-, hw⟩ := allocate_none _ _ _ hc
      subst hw
      exact ⟨h, rfl, rfl, rfl⟩
  · simp only [Prod.mk.injEq] at hl
    obtain ⟨-, -, hl⟩ := hl
    subst hl
    exact ⟨h, rfl, rfl, rfl⟩

theorem erase_insert_insert (S : Finset Nat) (b i : Nat) (hb : b ∉ S) (hne : i ≠ b) :
    (insert i (insert b S)).erase b = insert i S := by
  ext x
  simp only [Finset.mem_erase, Finset.mem_insert]
  constructor
  · rintro ⟨h1, h2 | h2 | h2⟩
    · exact Or.inl h2
    · exact absurd h2 h1
    · exact Or.inr h2
  · rintro (h | h)
    · exact ⟨by rw [h]; exact hne, Or.inl h⟩
    · exact ⟨fun e => hb (e ▸ h), Or.inr (Or.inr h)⟩

theorem add_include_file_owns (w0 w : World) (S : Finset Nat) (b : Nat) (hb : b ∉ S)
    (h : Owns w0 w (insert b S)) (includePath : Option String) (p : Ptr) (w' : World)
    (hr : add_include_file w (some b) includePath = .ok (p, w')) :
    SameGL w w' ∧
      match p with
      | none => Owns w0 w' S
      | some c => c ∉ S ∧ Owns w0 w' (insert c S) := by
  cases includePath with
  | none =>
    simp only [add_include_file, Except.ok.injEq, Prod.mk.injEq] at hr
    obtain ⟨rfl, rfl⟩ := hr
    exact ⟨⟨rfl, rfl, rfl⟩, hb, h⟩
  | some path =>
    unfold add_include_file at hr
    simp only at hr
    rcases hload : load_into_buffer w path with ⟨ok, i, w1⟩
    rw [hload] at hr
    cases ok with
    | false =>
      simp only [Except.ok.injEq, Prod.mk.injEq] at hr
      obtain ⟨rfl, rfl⟩ := hr
      obtain ⟨h1, hsg⟩ := load_into_buffer_owns_false w0 w _ h path i w1 hload
      exact ⟨hsg, owns_congr _ _ _ _ (owns_free w0 w1 _ h1 b (Finset.mem_insert_self _ _))
        (Finset.erase_insert hb)⟩
    | true =>
      obtain ⟨rfl, hi, h1, hsg⟩ := load_into_buffer_owns_true w0 w _ h path i w1 hload
      have hib : w.next ≠ b := fun e => hi (e ▸ Finset.mem_insert_self _ _)
      have hiS : w.next ∉ S := fun e => hi (Finset.mem_insert_of_mem e)
      -- both failure exits free `b`, then the include buffer
      have hfail : ∀ msg, Owns w0 (free (free (printf w1 msg) (some b)) (some w.next)) S := by
        intro msg
        have h2 : Owns w0 (printf w1 msg) (insert w.next (insert b S)) := h1
        have h3 := owns_congr _ _ _ _
          (owns_free w0 _ _ h2 b (Finset.mem_insert_of_mem (Finset.mem_insert_self _ _)))
          (erase_insert_insert S b w.next hb hib)
        exact owns_congr _ _ _ _ (owns_free w0 _ _ h3 w.next (Finset.mem_insert_self _ _))
          (Finset.erase_insert hiS)
      simp only at hr
      split at hr
      · cases hr
      · cases hr
      · split at hr
        · simp only [Except.ok.injEq, Prod.mk.injEq] at hr
          obtain ⟨rfl, rfl⟩ := hr
          exact ⟨hsg, hfail _⟩
        · split at hr
          · cases hr
          · simp only [Except.ok.injEq, Prod.mk.injEq] at hr
            obtain ⟨rfl, rfl⟩ := hr
            exact ⟨hsg, hfail _⟩
          · rcases hm : malloc w1 (_ + _ + 1) with ⟨c, wM⟩
            rw [hm] at hr
            simp only at hr
            cases c with
            | none => simp [memcpy] at hr
            | some c =>
              obtain ⟨-, hc, hM⟩ := owns_allocate w0 w1 _ h1 _ c wM hm
              have hsgM : SameGL w1 wM := by
                obtain ⟨-, -, hw⟩ := allocate_some _ _ _ _ hm
                subst hw; exact ⟨rfl, rfl, rfl⟩
              have hcm := Finset.mem_insert_self c (insert w.next (insert b S))
              split at hr
              · cases hr
              · rename_i wA hA
                obtain ⟨hOA, hsgA⟩ := owns_memcpy w0 wM _ hM c hcm _ _ _ _ wA hA
                split at hr
                · cases hr
                · rename_i wB hB
                  obtain ⟨hOB, hsgB⟩ := owns_memcpy w0 wA _ hOA c hcm _ _ _ _ wB hB
                  split at hr
                  · cases hr
                  · rename_i wC hC
                    obtain ⟨hOC, hsgC⟩ := owns_memcpy w0 wB _ hOB c hcm _ _ _ _ wC hC
                    simp only [Except.ok.injEq, Prod.mk.injEq] at hr
                    obtain ⟨rfl, rfl⟩ := hr
                    have hcb : c ≠ b := fun e =>
                      hc (e ▸ Finset.mem_insert_of_mem (Finset.mem_insert_self _ _))
                    have hci : c ≠ w.next := fun e => hc (e ▸ Finset.mem_insert_self _ _)
                    have hcS : c ∉ S := fun e =>
                      hc (Finset.mem_insert_of_mem (Finset.mem_insert_of_mem e))
                    have e1 : (insert c (insert w.next (insert b S))).erase b
                        = insert c (insert w.next S) := by
                      rw [Finset.erase_insert_of_ne hcb, erase_insert_insert S b w.next hb hib]
                    have e2 : (insert c (insert w.next S)).erase w.next = insert c S := by
                      rw [Finset.erase_insert_of_ne hci, Finset.erase_insert hiS]
                    have h5 := owns_congr _ _ _ _ (owns_free w0 wC _ hOC b
                      (Finset.mem_insert_of_mem (Finset.mem_insert_of_mem
                        (Finset.mem_insert_self _ _)))) e1
                    have h6 := owns_congr _ _ _ _ (owns_free w0 _ _ h5 w.next
                      (Finset.mem_insert_of_mem (Finset.mem_insert_self _ _))) e2
                    refine ⟨?_, hcS, h6⟩
                    obtain ⟨a1, a2, a3⟩ := hsg
                    obtain ⟨b1, b2, b3⟩ := hsgM
                    obtain ⟨c1, c2, c3⟩ := hsgA
                    obtain ⟨d1, d2, d3⟩ := hsgB
                    obtain ⟨e1, e2, e3⟩ := hsgC
                    exact ⟨by show wC.glCalls = _; rw [e1, d1, c1, b1, a1],
                      by show wC.glIds = _; rw [e2, d2, c2, b2, a2],
                      by show wC.glStatus = _; rw [e3, d3, c3, b3, a3]⟩

theorem owns_heap_eq (w0 a b : World) (S : Finset Nat) (h : Owns w0 a S)
    (hn : b.next = a.next) (hh : b.heap = a.heap) : Owns w0 b S := by
  unfold Owns at h ⊢
  rw [hn, hh]
  exact h

theorem owns_free_pair (w0 w4 W : World) (c1 c2 : Nat) (hc : c2 ∉ ({c1} : Finset Nat))
    (hO : Owns w0 w4 (insert c2 {c1})) (hn : W.next = w4.next) (hh : W.heap = w4.heap) :
    Owns w0 (free (free W (some c1)) (some c2)) ∅ := by
  have h1 := owns_heap_eq w0 w4 W _ hO hn hh
  have hne : c2 ≠ c1 := by simpa using hc
  have e1 : (insert c2 ({c1} : Finset Nat)).erase c1 = {c2} := by
    ext x
    simp only [Finset.mem_erase, Finset.mem_insert, Finset.mem_singleton]
    constructor
    · rintro ⟨h1, h2 | h2⟩
      · exact h2
      · exact absurd h2 h1
    · intro hx
      exact ⟨by rw [hx]; exact hne, Or.inl hx⟩
  have h2 := owns_congr _ _ _ _ (owns_free w0 W _ h1 c1
    (Finset.mem_insert_of_mem (Finset.mem_singleton_self _))) e1
  exact owns_congr _ _ _ _ (owns_free w0 _ _ h2 c2 (Finset.mem_singleton_self _))
    (Finset.erase_singleton c2)

theorem owns_refl (w : World) : Owns w w ∅ :=
  ⟨Nat.le_refl _, fun _ _ => rfl, fun x h1 h2 => by omega, by simp⟩

theorem free_sameGL (w : World) (p : Ptr) : SameGL w (free w p) := by
  cases p <;> exact ⟨rfl, rfl, rfl⟩

theorem sameGL_trans (a b c : World) (h1 : SameGL a b) (h2 : SameGL b c) : SameGL a c :=
  ⟨h2.1.trans h1.1, h2.2.1.trans h1.2.1, h2.2.2.trans h1.2.2⟩

theorem glShaderSource_ok (w : World) (shader : Nat) (p : Ptr) (w' : World)
    (h : glShaderSource w shader p = .ok w') :
    ∃ src, w' = { w with glCalls := w.glCalls ++ [.shaderSource shader src] } := by
  unfold glShaderSource at h
  split at h
  · cases h
  · simp only [Except.ok.injEq] at h
    exact ⟨_, h.symm⟩

/-- Every way `shader_load` returns: the heap accounting is settled, and the requests sent to
the driver are one of five sequences. -/
theorem shader_load_cases (w : World) (vertexPath : String) (vertexIncludePath : Option String)
    (fragmentPath : String) (fragmentIncludePath : Option String) (r : Int) (w' : World)
    (h : shader_load w vertexPath vertexIncludePath fragmentPath fragmentIncludePath
      = .ok (r, w')) :
    Owns w w' ∅ ∧ ∃ new, w'.glCalls = w.glCalls ++ new ∧
      ((r = -1 ∧ new = []) ∨
       ∃ vs fs w4, SourcesReady w vertexPath vertexIncludePath fragmentPath fragmentIncludePath
          vs fs w4 ∧ ∃ v srcv s1, w4.glIds.headD 0 % 2 ^ 32 = v ∧ w4.glStatus.headD 0 = s1 ∧
        ((s1 = 0 ∧ r = -1 ∧ new =
            [.createShader .vertex v, .shaderSource v srcv, .compileShader v,
             .getShaderiv v s1, .deleteShader v]) ∨
         ∃ f srcf s2, s1 ≠ 0 ∧
          ((s2 = 0 ∧ r = -1 ∧ new =
              [.createShader .vertex v, .shaderSource v srcv, .compileShader v,
               .getShaderiv v s1, .createShader .fragment f, .shaderSource f srcf,
               .compileShader f, .getShaderiv f s2, .deleteShader v, .deleteShader f]) ∨
           ∃ p s3, s2 ≠ 0 ∧
            ((s3 = 0 ∧ r = -1 ∧ new =
                [.createShader .vertex v, .shaderSource v srcv, .compileShader v,
                 .getShaderiv v s1, .createShader .fragment f, .shaderSource f srcf,
                 .compileShader f, .getShaderiv f s2, .createProgram p,
                 .attachShader p v, .attachShader p f, .linkProgram p, .getProgramiv p s3,
                 .deleteShader v, .deleteShader f, .deleteProgram p]) ∨
             (s3 ≠ 0 ∧ r = toInt p ∧ p < 2 ^ 32 ∧ new =
                [.createShader .vertex v, .shaderSource v srcv, .compileShader v,
                 .getShaderiv v s1, .createShader .fragment f, .shaderSource f srcf,
                 .compileShader f, .getShaderiv f s2, .createProgram p,
                 .attachShader p v, .attachShader p f, .linkProgram p, .getProgramiv p s3,
                 .deleteShader v, .deleteShader f]))))) := by
  unfold shader_load at h
  rcases hl1 : load_into_buffer w vertexPath with ⟨ok1, vS, w1⟩
  rw [hl1] at h
  cases ok1 with
  | false =>
    simp only [Except.ok.injEq, Prod.mk.injEq] at h
    obtain ⟨rfl, rfl⟩ := h
    obtain ⟨ho, hg⟩ := load_into_buffer_owns_false w w ∅ (owns_refl w) vertexPath vS w1 hl1
    exact ⟨ho, [], by simp [hg.1], Or.inl ⟨rfl, rfl⟩⟩
  | true =>
    obtain ⟨rfl, -, ho1, hg1⟩ :=
      load_into_buffer_owns_true w w ∅ (owns_refl w) vertexPath vS w1 hl1
    simp only at h
    rcases hl2 : load_into_buffer w1 fragmentPath with ⟨ok2, fS, w2⟩
    rw [hl2] at h
    cases ok2 with
    | false =>
      simp only [Except.ok.injEq, Prod.mk.injEq] at h
      obtain ⟨rfl, rfl⟩ := h
      obtain ⟨ho, hg⟩ := load_into_buffer_owns_false w w1 _ ho1 fragmentPath fS w2 hl2
      have ho' := owns_congr _ _ _ _ (owns_free w w2 _ ho w.next (Finset.mem_insert_self _ _))
        (Finset.erase_insert (Finset.not_mem_empty _))
      refine ⟨ho', [], ?_, Or.inl ⟨rfl, rfl⟩⟩
      rw [(free_sameGL w2 _).1, hg.1, hg1.1, List.append_nil]
    | true =>
      obtain ⟨rfl, hn2, ho2, hg2⟩ := load_into_buffer_owns_true w w1 _ ho1 fragmentPath fS w2 hl2
      simp only at h
      have hne : w.next ≠ w1.next := fun e => hn2 (e ▸ Finset.mem_insert_self _ _)
      have ho2' : Owns w w2 (insert w.next {w1.next}) :=
        owns_congr _ _ _ _ ho2 (by
          ext x; simp only [Finset.mem_insert, Finset.mem_singleton, Finset.not_mem_empty,
            or_false]; tauto)
      cases ha1 : add_include_file w2 (some w.next) vertexIncludePath with
      | error e => rw [ha1] at h; cases h
      | ok res1 =>
        obtain ⟨vS', w3⟩ := res1
        rw [ha1] at h
        simp only at h
        obtain ⟨hg3, ho3⟩ := add_include_file_owns w w2 {w1.next} w.next
          (by simpa using hne) ho2' vertexIncludePath vS' w3 ha1
        cases ha2 : add_include_file w3 (some w1.next) fragmentIncludePath with
        | error e => rw [ha2] at h; cases h
        | ok res2 =>
          obtain ⟨fS', w4⟩ := res2
          rw [ha2] at h
          simp only at h
          have hsame : ∀ W : World, W.glCalls = w4.glCalls → W.glCalls = w.glCalls := by
            intro W hW
            cases vS' with
            | none =>
              have := (add_include_file_owns w w3 ∅ w1.next (Finset.not_mem_empty _)
                ho3 fragmentIncludePath fS' w4 ha2).1
              rw [hW, this.1, hg3.1, hg2.1, hg1.1]
            | some c1 =>
              have hO3 : Owns w w3 (insert w1.next {c1}) :=
                owns_congr _ _ _ _ ho3.2 (by
                  ext x; simp only [Finset.mem_insert, Finset.mem_singleton]; tauto)
              have hc1 : w1.next ∉ ({c1} : Finset Nat) := by
                have := ho3.1
                simp only [Finset.mem_singleton] at this ⊢
                exact fun e => this e.symm
              have := (add_include_file_owns w w3 {c1} w1.next hc1 hO3
                fragmentIncludePath fS' w4 ha2).1
              rw [hW, this.1, hg3.1, hg2.1, hg1.1]
          cases vS' with
          | none =>
            obtain ⟨hg4, ho4⟩ := add_include_file_owns w w3 ∅ w1.next (Finset.not_mem_empty _)
              ho3 fragmentIncludePath fS' w4 ha2
            simp only [true_or, if_true, Except.ok.injEq, Prod.mk.injEq] at h
            obtain ⟨rfl, rfl⟩ := h
            refine ⟨?_, [], ?_, Or.inl ⟨rfl, rfl⟩⟩
            · cases fS' with
              | none => exact ho4
              | some c2 =>
                exact owns_congr _ _ _ _ (owns_free w w4 _ ho4.2 c2 (Finset.mem_insert_self _ _))
                  (Finset.erase_insert ho4.1)
            · rw [List.append_nil]
              exact hsame _ (free_sameGL _ _).1
          | some c1 =>
            have hO3 : Owns w w3 (insert w1.next {c1}) :=
              owns_congr _ _ _ _ ho3.2 (by
                ext x; simp only [Finset.mem_insert, Finset.mem_singleton]; tauto)
            have hc1 : w1.next ∉ ({c1} : Finset Nat) := by
              have := ho3.1
              simp only [Finset.mem_singleton] at this ⊢
              exact fun e => this e.symm
            obtain ⟨hg4, ho4⟩ := add_include_file_owns w w3 {c1} w1.next hc1 hO3
              fragmentIncludePath fS' w4 ha2
            cases fS' with
            | none =>
              simp only [or_true, if_true, Except.ok.injEq, Prod.mk.injEq] at h
              obtain ⟨rfl, rfl⟩ := h
              refine ⟨?_, [], ?_, Or.inl ⟨rfl, rfl⟩⟩
              · exact owns_congr _ _ _ _ (owns_free w w4 _ ho4 c1 (Finset.mem_singleton_self _))
                  (Finset.erase_singleton c1)
              · rw [List.append_nil]
                exact hsame _ (free_sameGL _ _).1
            | some c2 =>
              obtain ⟨hc2, hO4⟩ := ho4
              have hready : SourcesReady w vertexPath vertexIncludePath fragmentPath
                  fragmentIncludePath c1 c2 w4 := ⟨_, _, _, _, _, hl1, hl2, ha1, ha2⟩
              have hw4 := hsame w4 rfl
              simp only [reduceCtorEq, or_self, if_false, glCreateShader] at h
              split at h
              · cases h
              · rename_i wA hA
                obtain ⟨srcv, rfl⟩ := glShaderSource_ok _ _ _ _ hA
                simp only [glGetShaderiv, glCompileShader] at h
                have hfin : ∀ W : World, W.next = w4.next → W.heap = w4.heap →
                    Owns w (free (free W (some c1)) (some c2)) ∅ :=
                  fun W hn hh => owns_free_pair w w4 W c1 c2 hc2 hO4 hn hh
                split at h
                · rename_i hs1
                  simp only [Except.ok.injEq, Prod.mk.injEq] at h
                  obtain ⟨rfl, rfl⟩ := h
                  refine ⟨owns_heap_eq _ _ _ _ (hfin _ rfl rfl) rfl rfl, _, ?_,
                    Or.inr ⟨c1, c2, w4, hready, _, srcv, _, rfl, rfl, Or.inl ⟨hs1, rfl, rfl⟩⟩⟩
                  simp [glDeleteShader, free, hw4]
                · rename_i hs1
                  split at h
                  · cases h
                  · rename_i wB hB
                    obtain ⟨srcf, rfl⟩ := glShaderSource_ok _ _ _ _ hB
                    split at h
                    · rename_i hs2
                      simp only [Except.ok.injEq, Prod.mk.injEq] at h
                      obtain ⟨rfl, rfl⟩ := h
                      refine ⟨owns_heap_eq _ _ _ _ (hfin _ rfl rfl) rfl rfl, _, ?_,
                        Or.inr ⟨c1, c2, w4, hready, _, srcv, _, rfl, rfl,
                          Or.inr ⟨(w4.glIds.tail.headD 0 % 2 ^ 32), srcf, (w4.glStatus.tail.headD 0), hs1, Or.inl ⟨hs2, rfl, rfl⟩⟩⟩⟩
                      simp [glDeleteShader, free, hw4]
                    · rename_i hs2
                      simp only [glCreateProgram, glGetProgramiv, glLinkProgram,
                        glAttachShader] at h
                      split at h
                      · rename_i hs3
                        simp only [Except.ok.injEq, Prod.mk.injEq] at h
                        obtain ⟨rfl, rfl⟩ := h
                        refine ⟨owns_heap_eq _ _ _ _ (hfin _ rfl rfl) rfl rfl, _, ?_,
                          Or.inr ⟨c1, c2, w4, hready, _, srcv, _, rfl, rfl,
                            Or.inr ⟨(w4.glIds.tail.headD 0 % 2 ^ 32), srcf, (w4.glStatus.tail.headD 0), hs1,
                              Or.inr ⟨(w4.glIds.tail.tail.headD 0 % 2 ^ 32), (w4.glStatus.tail.tail.headD 0), hs2,
                                Or.inl ⟨hs3, rfl, rfl⟩⟩⟩⟩⟩
                        simp [glDeleteShader, glDeleteProgram, free, hw4]
                      · rename_i hs3
                        simp only [Except.ok.injEq, Prod.mk.injEq] at h
                        obtain ⟨rfl, rfl⟩ := h
                        refine ⟨hfin _ rfl rfl, _, ?_,
                          Or.inr ⟨c1, c2, w4, hready, _, srcv, _, rfl, rfl,
                            Or.inr ⟨(w4.glIds.tail.headD 0 % 2 ^ 32), srcf, (w4.glStatus.tail.headD 0), hs1,
                              Or.inr ⟨(w4.glIds.tail.tail.headD 0 % 2 ^ 32), (w4.glStatus.tail.tail.headD 0), hs2,
                                Or.inr ⟨hs3, rfl, Nat.mod_lt _ (by norm_num), rfl⟩⟩⟩⟩⟩
                        simp [glDeleteShader, free, hw4]

/-- Every way `compute_shader_load` returns. -/
theorem compute_shader_load_cases (w : World) (path : String) (includePath : Option String)
    (r : Int) (w' : World) (h : compute_shader_load w path includePath = .ok (r, w')) :
    Owns w w' ∅ ∧ ∃ new, w'.glCalls = w.glCalls ++ new ∧
      ((r = -1 ∧ new = []) ∨
       ∃ c src s1,
        ((s1 = 0 ∧ r = -1 ∧ new =
            [.createShader .compute c, .shaderSource c src, .compileShader c,
             .getShaderiv c s1, .deleteShader c]) ∨
         ∃ p s2, s1 ≠ 0 ∧
          ((s2 = 0 ∧ r = -1 ∧ new =
              [.createShader .compute c, .shaderSource c src, .compileShader c,
               .getShaderiv c s1, .createProgram p, .attachShader p c, .linkProgram p,
               .getProgramiv p s2, .deleteShader c, .deleteProgram p]) ∨
           (s2 ≠ 0 ∧ r = toInt p ∧ new =
              [.createShader .compute c, .shaderSource c src, .compileShader c,
               .getShaderiv c s1, .createProgram p, .attachShader p c, .linkProgram p,
               .getProgramiv p s2, .deleteShader c])))) := by
  unfold compute_shader_load at h
  rcases hl1 : load_into_buffer w path with ⟨ok1, src0, w1⟩
  rw [hl1] at h
  cases ok1 with
  | false =>
    simp only [Except.ok.injEq, Prod.mk.injEq] at h
    obtain ⟨rfl, rfl⟩ := h
    obtain ⟨ho, hg⟩ := load_into_buffer_owns_false w w ∅ (owns_refl w) path src0 w1 hl1
    exact ⟨ho, [], by simp [hg.1], Or.inl ⟨rfl, rfl⟩⟩
  | true =>
    obtain ⟨rfl, -, ho1, hg1⟩ := load_into_buffer_owns_true w w ∅ (owns_refl w) path src0 w1 hl1
    simp only at h
    cases ha1 : add_include_file w1 (some w.next) includePath with
    | error e => rw [ha1] at h; cases h
    | ok res1 =>
      obtain ⟨source, w2⟩ := res1
      rw [ha1] at h
      simp only at h
      obtain ⟨hg2, ho2⟩ := add_include_file_owns w w1 ∅ w.next (Finset.not_mem_empty _) ho1
        includePath source w2 ha1
      have hw2 : w2.glCalls = w.glCalls := by rw [hg2.1, hg1.1]
      cases source with
      | none =>
        simp only [if_true, Except.ok.injEq, Prod.mk.injEq] at h
        obtain ⟨rfl, rfl⟩ := h
        exact ⟨ho2, [], by simp [hw2], Or.inl ⟨rfl, rfl⟩⟩
      | some c1 =>
        have hfin : ∀ W : World, W.next = w2.next → W.heap = w2.heap →
            Owns w (free W (some c1)) ∅ := fun W hn hh =>
          owns_congr _ _ _ _ (owns_free w W _ (owns_heap_eq w w2 W _ ho2.2 hn hh) c1
            (Finset.mem_insert_self _ _)) (Finset.erase_insert ho2.1)
        simp only [reduceCtorEq, if_false, glCreateShader] at h
        split at h
        · cases h
        · rename_i wA hA
          obtain ⟨srcv, rfl⟩ := glShaderSource_ok _ _ _ _ hA
          simp only [glGetShaderiv, glCompileShader] at h
          split at h
          · rename_i hs1
            simp only [Except.ok.injEq, Prod.mk.injEq] at h
            obtain ⟨rfl, rfl⟩ := h
            refine ⟨owns_heap_eq _ _ _ _ (hfin _ rfl rfl) rfl rfl, _, ?_,
              Or.inr ⟨w2.glIds.headD 0 % 2 ^ 32, srcv, w2.glStatus.headD 0,
                Or.inl ⟨hs1, rfl, rfl⟩⟩⟩
            simp [glDeleteShader, free, hw2]
          · rename_i hs1
            simp only [glCreateProgram, glGetProgramiv, glLinkProgram, glAttachShader] at h
            split at h
            · rename_i hs2
              simp only [Except.ok.injEq, Prod.mk.injEq] at h
              obtain ⟨rfl, rfl⟩ := h
              refine ⟨owns_heap_eq _ _ _ _ (hfin _ rfl rfl) rfl rfl, _, ?_,
                Or.inr ⟨w2.glIds.headD 0 % 2 ^ 32, srcv, w2.glStatus.headD 0,
                  Or.inr ⟨w2.glIds.tail.headD 0 % 2 ^ 32, w2.glStatus.tail.headD 0, hs1,
                    Or.inl ⟨hs2, rfl, rfl⟩⟩⟩⟩
              simp [glDeleteShader, glDeleteProgram, free, hw2]
            · rename_i hs2
              simp only [Except.ok.injEq, Prod.mk.injEq] at h
              obtain ⟨rfl, rfl⟩ := h
              refine ⟨hfin _ rfl rfl, _, ?_,
                Or.inr ⟨w2.glIds.headD 0 % 2 ^ 32, srcv, w2.glStatus.headD 0,
                  Or.inr ⟨w2.glIds.tail.headD 0 % 2 ^ 32, w2.glStatus.tail.headD 0, hs1,
                    Or.inr ⟨hs2, rfl, rfl⟩⟩⟩⟩
              simp [glDeleteShader, free, hw2]

theorem shaderCreations_cons (c : GLCall) (cs : List GLCall) (id : Nat) :
    shaderCreations (c :: cs) id =
      shaderCreations cs id + (match c with | .createShader _ i => if i = id then 1 else 0 | _ => 0) := by
  unfold shaderCreations
  rw [List.countP_cons]
  congr 1
  cases c <;> simp
  rename_i k i
  cases k <;> simp

theorem shaderDeletions_cons (c : GLCall) (cs : List GLCall) (id : Nat) :
    shaderDeletions (c :: cs) id =
      shaderDeletions cs id + (match c with | .deleteShader i => if i = id then 1 else 0 | _ => 0) := by
  unfold shaderDeletions
  rw [List.count_cons]
  congr 1
  cases c <;> simp

theorem shaderCreations_nil (id : Nat) : shaderCreations [] id = 0 := rfl
theorem shaderDeletions_nil (id : Nat) : shaderDeletions [] id = 0 := rfl

theorem heapReleased_of_owns (w w' : World) (h : Owns w w' ∅) : HeapReleased w w' := by
  obtain ⟨h1, h2, h3, -⟩ := h
  refine ⟨h1, h2, ?_⟩
  intro x hx1 hx2
  simpa using h3 x hx1 hx2

/-- C4: on every exit path of `shader_load` and of `compute_shader_load`, every buffer
allocated during the call has been freed exactly once, no older block was touched, and every
stage object id created during the call was deleted as often as it was created. -/
theorem builders_release_everything (w : World) (vertexPath : String)
    (vertexIncludePath : Option String) (fragmentPath : String)
    (fragmentIncludePath : Option String) (path : String) (includePath : Option String)
    (r : Int) (w' : World)
    (h : shader_load w vertexPath vertexIncludePath fragmentPath fragmentIncludePath
          = .ok (r, w') ∨
         compute_shader_load w path includePath = .ok (r, w')) :
    HeapReleased w w' ∧ StagesReleased w w' := by
  rcases h with h | h
  · obtain ⟨ho, new, hnew, hc⟩ := shader_load_cases w vertexPath vertexIncludePath
      fragmentPath fragmentIncludePath r w' h
    refine ⟨heapReleased_of_owns w w' ho, new, hnew, ?_⟩
    intro id
    rcases hc with ⟨-, rfl⟩ | ⟨vs, fs, w4, -, v, srcv, s1, -, -, ⟨-, -, rfl⟩ |
      ⟨f, srcf, s2, -, ⟨-, -, rfl⟩ | ⟨p, s3, -, ⟨-, -, rfl⟩ | ⟨-, -, -, rfl⟩⟩⟩⟩
    all_goals simp only [shaderCreations_cons, shaderDeletions_cons, shaderCreations_nil,
      shaderDeletions_nil]
    all_goals omega
  · obtain ⟨ho, new, hnew, hc⟩ := compute_shader_load_cases w path includePath r w' h
    refine ⟨heapReleased_of_owns w w' ho, new, hnew, ?_⟩
    intro id
    rcases hc with ⟨-, rfl⟩ | ⟨c, src, s1, ⟨-, -, rfl⟩ |
      ⟨p, s2, -, ⟨-, -, rfl⟩ | ⟨-, -, rfl⟩⟩⟩
    all_goals simp only [shaderCreations_cons, shaderDeletions_cons, shaderCreations_nil,
      shaderDeletions_nil]
    all_goals omega

set_option maxRecDepth 100000 in
/-- A struct name of 256 characters: `get_full_name` leaves the 258 characters of
`structName ++ "." ++ name` and the terminator in the stack area, three bytes of them behind
the array, and the setter asks the driver for exactly that name. -/
theorem struct_uniform_overlong_name :
    get_full_name (fun _ => 0) (fullNameArray (fun _ => 0)) (List.replicate 256 97 ++ [0])
        [98, 0] = .ok (List.replicate 256 97 ++ [46, 98, 0]) ∧
    ∀ locate : Nat → List Byte → Int,
      (shader_struct_uniform_int locate (fun _ => 0) 1 (List.replicate 256 97 ++ [0])
          [98, 0] 5 : Except Fault (UniformCall natNumerics × Nat))
        = .ok (.uniform1i (locate 1 (List.replicate 256 97 ++ [46, 98])) 5, 3) := by
  have h : get_full_name (fun _ => 0) (fullNameArray (fun _ => 0))
      (List.replicate 256 97 ++ [0]) [98, 0] = .ok (List.replicate 256 97 ++ [46, 98, 0]) := by
    rfl
  refine ⟨h, fun locate => ?_⟩
  unfold shader_struct_uniform_int
  rw [h]
  rfl

/-- C8: with a NULL include path `add_include_file` returns the base pointer itself and
leaves the whole state (heap, allocations, output) untouched, whatever the base holds. -/
theorem add_include_file_null (w : World) (baseSource : Ptr) :
    add_include_file w baseSource none = .ok (baseSource, w) := rfl

/-- C2: what the code does with an empty include file: `fread` of one item of size 0 returns 0,
so `load_into_buffer` reports failure and `add_include_file` returns NULL, not the base. -/
theorem empty_include_rejected (w : World) (path : String) (f : File) (base : Ptr)
    (hf : w.files path = some f) (he : f.content = []) :
    (load_into_buffer w path).1 = false ∧
      ∃ w', add_include_file w base (some path) = .ok (none, w') := by
  have h1 : (load_into_buffer w path).1 = false := by
    unfold load_into_buffer fopen
    rw [hf]
    simp only [he, List.length_nil, calloc, fread, true_or, if_true]
    split
    · split <;> simp_all
    · rfl
  refine ⟨h1, ?_⟩
  rcases hl : load_into_buffer w path with ⟨ok, p, w1⟩
  rw [hl] at h1
  simp only at h1
  subst h1
  refine ⟨free w1 base, ?_⟩
  unfold add_include_file
  simp only [hl]

/-- C9: what the code does when the read fails (empty file or short read): `load_into_buffer`
returns false and leaves in `*buffer` the address of the block it has just freed. -/
theorem load_into_buffer_dangling (w : World) (path : String) (f : File)
    (hf : w.files path = some f) (halloc : w.allocPlan.head? ≠ some false)
    (hread : f.content = [] ∨ f.readLimit < f.content.length) :
    ∃ w', load_into_buffer w path = (false, some w.next, w') ∧ w'.next = w.next + 1 ∧
      (w'.heap w.next).frees = 1 := by
  have ha := allocate_of_plan w (List.replicate (f.content.length + 1) 0) halloc
  unfold load_into_buffer fopen
  rw [hf]
  simp only [calloc, ha, fread]
  by_cases hz : f.content.length = 0
  · simp only [hz, true_or, if_true, Nat.zero_ne_one, if_false]
    exact ⟨_, rfl, rfl, by simp [free, printf, setBlock]⟩
  · have hlt : f.readLimit < f.content.length := by
      rcases hread with h | h
      · exact absurd (by simp [h]) hz
      · exact h
    have hdiv : min (f.content.length * 1) (min f.readLimit f.content.length)
        / f.content.length = 0 := Nat.div_eq_of_lt (by rw [Nat.mul_one]; omega)
    simp only [hz, Nat.one_ne_zero, or_self, if_false, hdiv, Nat.zero_ne_one]
    exact ⟨_, rfl, rfl, by simp [free, printf, setBlock]⟩

/-- C10: what the code does on every successful splice: the third copy is given the length
`len(base) - i + 1`; the combined buffer has `len(base) + len(include) + 1` bytes and exactly
one byte is stored past its end; when the base buffer has no slack after its terminator, one
byte is also read past the end of the base buffer. -/
theorem add_include_file_overflows (w : World) (base includeSource : Ptr) (path : String)
    (s inc : List Byte) (v j : Nat) (w1 : World)
    (hbase : HoldsString w base s) (hlen : s.length < 2 ^ 32)
    (hv : FirstOccurrence VERSION s v) (hvj : v ≤ j) (hnl : s[j]? = some NEWLINE)
    (hfirst : ∀ k, v ≤ k → k < j → s[k]? ≠ some NEWLINE)
    (hload : load_into_buffer w path = (true, includeSource, w1))
    (hinc : HoldsString w1 includeSource inc)
    (hmalloc : w1.allocPlan.head? ≠ some false) :
    ∃ c w', add_include_file w base (some path) = .ok (some c, w') ∧
      (w'.heap c).bytes.length = s.length + inc.length + 1 ∧
      w'.oobWrites = w.oobWrites + 1 ∧
      (∀ b, base = some b → (w.heap b).bytes.length = s.length + 1 →
        w'.oobReads = w.oobReads + 1) := by
  obtain ⟨b, rest, f, irest, rfl, hl, hb, hs, rfl, rfl, hload', hi, hi0⟩ :=
    unpack_inputs w base includeSource path s inc w1 hbase hload hinc
  obtain ⟨w', hres, -, hc, -, -, -, hw, hr, -⟩ := add_include_file_splice w b path f s rest inc
    irest v j hl hb hs hlen hv hvj hnl hfirst hload' hi hi0 hmalloc
  have hjl : j < s.length := by
    by_contra hcon
    rw [List.getElem?_eq_none (by omega)] at hnl
    simp at hnl
  refine ⟨w.next + 1, w', hres, ?_, hw, ?_⟩
  · rw [hc]
    simp only [List.length_append, List.length_take, List.length_drop, List.length_singleton]
    omega
  · intro b' hb' hlen'
    simp only [Option.some.injEq] at hb'
    subst hb'
    rw [hb] at hlen'
    simp only [List.length_append, List.length_cons] at hlen'
    rw [hr]
    omega

/-- C5 (counterexample): with program id `4294967295` the build succeeds, all three statuses
being 1, and `shader_load` returns -1. -/
theorem shader_load_large_id :
    (shader_load demoLargeId "vertex.glsl" none "fragment.glsl" none).map Prod.fst
        = .ok (-1) ∧
      (shader_load demoLargeId "vertex.glsl" none "fragment.glsl" none).map
          (fun r => r.2.glCalls.drop 8)
        = .ok [.createProgram 4294967295, .attachShader 4294967295 1,
            .attachShader 4294967295 2, .linkProgram 4294967295,
            .getProgramiv 4294967295 1, .deleteShader 1, .deleteShader 2] := by
  refine ⟨by rfl, by rfl⟩

theorem load_into_buffer_holds (w : World) (path : String) (p : Ptr) (w' : World)
    (h : load_into_buffer w path = (true, p, w')) :
    ∃ f s, w.files path = some f ∧ p = some w.next ∧ w' = loaded w f ∧
      HoldsString w' p s ∧ s.length ≤ f.content.length := by
  obtain ⟨f, hf, -, -, -, hp, hw⟩ := load_into_buffer_true w path p w' h
  obtain ⟨inc, irest, hi, hi0⟩ := exists_string f.content
  subst hp hw
  refine ⟨f, inc, hf, rfl, rfl, ⟨w.next, irest, rfl, ?_, ?_, hi0⟩, ?_⟩
  · rw [live_iff]; simp [loaded, setBlock]
  · simp [loaded, setBlock, hi]
  · have := congrArg List.length hi
    simp only [List.length_append, List.length_cons, List.length_nil] at this
    omega

theorem holdsString_frame (w w' : World) (x : Nat) (s : List Byte)
    (h : HoldsString w (some x) s) (hn : w.next ≤ w'.next) (hh : w'.heap x = w.heap x) :
    HoldsString w' (some x) s := by
  obtain ⟨b, rest, hb, hl, hbytes, hs⟩ := h
  simp only [Option.some.injEq] at hb
  subst hb
  obtain ⟨h1, h2⟩ := (live_iff w x).1 hl
  refine ⟨x, rest, rfl, ?_, by rw [hh]; exact hbytes, hs⟩
  rw [live_iff, hh]
  exact ⟨by omega, h2⟩

/-- A successful combine of a small base string yields a live string buffer and leaves the
other blocks alone. -/
theorem add_include_file_some (w : World) (b : Nat) (s : List Byte)
    (includePath : Option String) (c : Nat) (w' : World)
    (hbase : HoldsString w (some b) s) (hlen : s.length < 2 ^ 32)
    (hr : add_include_file w (some b) includePath = .ok (some c, w')) :
    (∃ s', HoldsString w' (some c) s') ∧ w.next ≤ w'.next ∧
      (∀ x, x < w.next → x ≠ b → w'.heap x = w.heap x) ∧
      (c = b ∨ w.next ≤ c) ∧ SameGL w w' := by
  cases includePath with
  | none =>
    simp only [add_include_file, Except.ok.injEq, Prod.mk.injEq, Option.some.injEq] at hr
    obtain ⟨rfl, rfl⟩ := hr
    exact ⟨⟨s, hbase⟩, Nat.le_refl _, fun _ _ _ => rfl, Or.inl rfl, rfl, rfl, rfl⟩
  | some path =>
    obtain ⟨b', rest, hb', hl, hb, hs⟩ := hbase
    simp only [Option.some.injEq] at hb'
    subst hb'
    obtain ⟨hbn, hbf⟩ := (live_iff w b).1 hl
    rcases hload : load_into_buffer w path with ⟨ok, i, w1⟩
    cases ok with
    | false =>
      unfold add_include_file at hr
      simp only [hload] at hr
      cases hr
    | true =>
      obtain ⟨f, -, -, -, -, hp, hw1⟩ := load_into_buffer_true w path i w1 hload
      subst hp hw1
      obtain ⟨inc, irest, hi, hi0⟩ := exists_string f.content
      rcases version_cases s with hm | ⟨v, hv, hnone⟩ | ⟨v, j, hv, hvj, hnl, hfirst⟩
      · rw [add_include_file_missing w b path f s rest inc irest hl hb hs hload hi hi0 hm] at hr
        cases hr
      · rw [add_include_file_truncated w b path f s rest inc irest v hl hb hs hlen hload hi hi0
          hv hnone] at hr
        cases hr
      · by_cases hmal : w.allocPlan.tail.head? = some false
        · rw [add_include_file_nomem w b path f s rest inc irest v j hl hb hs hlen hv hvj hnl
            hfirst hload hi hi0 hmal] at hr
          cases hr
        · obtain ⟨w'', hres, hnext, hc, -, -, hother, -, -, -, hg1, hg2, hg3, -, hfiles, -⟩ :=
            add_include_file_splice w b path f s rest inc irest v j hl hb hs hlen hv hvj hnl
              hfirst hload hi hi0 hmal
          rw [hres] at hr
          simp only [Except.ok.injEq, Prod.mk.injEq, Option.some.injEq] at hr
          obtain ⟨rfl, rfl⟩ := hr
          refine ⟨⟨_, w.next + 1, [], rfl, ?_, by rw [hc], ?_⟩, by omega, ?_,
            Or.inr (Nat.le_succ _), hg1, hg2, hg3⟩
          · rw [live_iff, hc]; simp; omega
          · simp only [List.mem_append, not_or]
            exact ⟨⟨fun h => hs (List.mem_of_mem_take h), hi0⟩,
              fun h => hs (List.mem_of_mem_drop h)⟩
          · intro x hx hxb
            exact hother x hxb (by omega) (by omega)

/-- After the four source steps both combined sources are live string buffers, and the
driver has not been contacted yet. -/
theorem sourcesReady_strings (w : World) (vertexPath : String)
    (vertexIncludePath : Option String) (fragmentPath : String)
    (fragmentIncludePath : Option String) (vs fs : Nat) (w4 : World)
    (hready : SourcesReady w vertexPath vertexIncludePath fragmentPath fragmentIncludePath
      vs fs w4)
    (hsmall : ∀ path file, w.files path = some file → file.content.length < 2 ^ 32) :
    (∃ sv, HoldsString w4 (some vs) sv) ∧ (∃ sf, HoldsString w4 (some fs) sf) ∧
      SameGL w w4 := by
  obtain ⟨p1, w1, p2, w2, w3, h1, h2, h3, h4⟩ := hready
  obtain ⟨f1, s1, hf1, rfl, rfl, hs1, hl1⟩ := load_into_buffer_holds w vertexPath p1 w1 h1
  obtain ⟨f2, s2, hf2, rfl, rfl, hs2, hl2⟩ :=
    load_into_buffer_holds (loaded w f1) fragmentPath p2 w2 h2
  have hlen1 : s1.length < 2 ^ 32 := Nat.lt_of_le_of_lt hl1 (hsmall _ _ hf1)
  have hlen2 : s2.length < 2 ^ 32 := Nat.lt_of_le_of_lt hl2 (hsmall _ _ hf2)
  -- the vertex buffer is untouched by the second load
  have hs1' : HoldsString (loaded (loaded w f1) f2) (some w.next) s1 :=
    holdsString_frame _ _ _ _ hs1 (Nat.le_succ _)
      (setBlock_other _ _ _ _ (Nat.ne_of_lt (Nat.lt_succ_self _)))
  obtain ⟨⟨sv, hsv⟩, hn3, hother3, hc3, hg3⟩ := add_include_file_some _ _ s1 vertexIncludePath vs w3
    hs1' hlen1 h3
  -- the fragment buffer is untouched by the vertex combine
  have hne : (loaded w f1).next ≠ w.next := Nat.succ_ne_self _
  have hs2' : HoldsString w3 (some (loaded w f1).next) s2 :=
    holdsString_frame _ _ _ _ hs2 hn3 (hother3 _ (Nat.lt_succ_self _) hne)
  obtain ⟨⟨sf, hsf⟩, hn4, hother4, -, hg4⟩ := add_include_file_some _ _ s2 fragmentIncludePath
    fs w4 hs2' hlen2 h4
  refine ⟨?_, ⟨sf, hsf⟩, ?_⟩
  · -- the combined vertex source is untouched by the fragment combine
    obtain ⟨b, rest, hb, hl, hbytes, hz⟩ := hsv
    simp only [Option.some.injEq] at hb
    subst hb
    have hlt := ((live_iff w3 vs).1 hl).1
    have hvs : vs ≠ (loaded w f1).next := by
      have e1 : (loaded w f1).next = w.next + 1 := rfl
      have e2 : (loaded (loaded w f1) f2).next = w.next + 2 := rfl
      rcases hc3 with h | h
      · omega
      · omega
    exact ⟨sv, holdsString_frame _ _ _ _ ⟨vs, rest, rfl, hl, hbytes, hz⟩ hn4
      (hother4 vs hlt hvs)⟩
  · exact sameGL_trans _ _ _ (sameGL_trans _ _ _ ⟨rfl, rfl, rfl⟩ hg3) hg4

theorem glShaderSource_holds (w W : World) (shader c : Nat) (s : List Byte)
    (h : HoldsString w (some c) s) (hn : W.next = w.next) (hh : W.heap = w.heap) :
    glShaderSource W shader (some c)
      = .ok { W with glCalls := W.glCalls ++ [.shaderSource shader s] } := by
  obtain ⟨b, rest, hb, hl, hbytes, hs⟩ := holdsString_frame w W c s h (Nat.le_of_eq hn.symm)
    (by rw [hh])
  simp only [Option.some.injEq] at hb
  subst hb
  simp only [glShaderSource, strlen_string W c s rest hl hbytes hs, hbytes, take_string]

/-- C5 (amended): when both sources load and combine and the driver reports success for
both compilations and the link, `shader_load` returns the program id `p` converted to `int`:
`p` itself, non-negative, when `p < 2 ^ 31`, and the negative number `p - 2 ^ 32` for the
other `GLuint` values. -/
theorem shader_load_handle (w : World) (vertexPath : String)
    (vertexIncludePath : Option String) (fragmentPath : String)
    (fragmentIncludePath : Option String) (vs fs : Nat) (w4 : World)
    (v f p : Nat) (ids : List Nat) (s1 s2 s3 : Int) (statuses : List Int)
    (hready : SourcesReady w vertexPath vertexIncludePath fragmentPath fragmentIncludePath
      vs fs w4)
    (hsmall : ∀ path file, w.files path = some file → file.content.length < 2 ^ 32)
    (hids : w.glIds = v :: f :: p :: ids) (hp : p < 2 ^ 32)
    (hst : w.glStatus = s1 :: s2 :: s3 :: statuses)
    (h1 : s1 ≠ 0) (h2 : s2 ≠ 0) (h3 : s3 ≠ 0) :
    ∃ r w', shader_load w vertexPath vertexIncludePath fragmentPath fragmentIncludePath
        = .ok (r, w') ∧
      (p < 2 ^ 31 → r = (p : Int) ∧ 0 ≤ r) ∧
      (2 ^ 31 ≤ p → r = (p : Int) - 2 ^ 32 ∧ r < 0) := by
  obtain ⟨⟨sv, hsv⟩, ⟨sf, hsf⟩, hg⟩ := sourcesReady_strings w vertexPath vertexIncludePath
    fragmentPath fragmentIncludePath vs fs w4 hready hsmall
  obtain ⟨p1, w1, p2, w2, w3, e1, e2, e3, e4⟩ := hready
  have hids4 : w4.glIds = v :: f :: p :: ids := hg.2.1.trans hids
  have hst4 : w4.glStatus = s1 :: s2 :: s3 :: statuses := hg.2.2.trans hst
  have hm : p % 2 ^ 32 = p := Nat.mod_eq_of_lt hp
  have hres : ∃ w', shader_load w vertexPath vertexIncludePath fragmentPath
      fragmentIncludePath = .ok (toInt p, w') := by
    unfold shader_load
    simp only [e1, e2, e3, e4, reduceCtorEq, or_self, if_false, glCreateShader, hids4,
      List.headD_cons, List.tail_cons]
    rw [glShaderSource_holds w4 _ _ vs sv hsv]
    · simp only [glGetShaderiv, glCompileShader, hst4, List.headD_cons, List.tail_cons, h1,
        if_false, glCreateShader]
      rw [glShaderSource_holds w4 _ _ fs sf hsf]
      · simp only [glGetShaderiv, glCompileShader, List.headD_cons, List.tail_cons, h2,
          if_false, glCreateProgram, glGetProgramiv, glLinkProgram, glAttachShader, h3, hm]
        exact ⟨_, rfl⟩
      · rfl
      · rfl
    · rfl
    · rfl
  obtain ⟨w', hw'⟩ := hres
  refine ⟨toInt p, w', hw', ?_, ?_⟩
  · intro hlt
    unfold toInt
    rw [hm, if_pos hlt]
    exact ⟨rfl, Int.natCast_nonneg p⟩
  · intro hge
    unfold toInt
    rw [hm, if_neg (by omega)]
    refine ⟨rfl, ?_⟩
    have : (p : Int) < 2 ^ 32 := by exact_mod_cast hp
    omega

theorem demoFiles_small (path : String) (file : File)
    (h : demoFiles path = some file) : file.content.length < 2 ^ 32 := by
  unfold demoFiles at h
  split_ifs at h <;> cases h <;> decide

/-! ## The theorems at concrete inputs -/

/-- Splicing `common.glsl` ("xy") into the loaded `vertex.glsl` ("#version 3\nab"). -/
theorem add_include_file_splices_witness :
    ∃ combined w', add_include_file demoLoaded (some 0) (some "common.glsl")
        = .ok (combined, w') ∧
      HoldsString w' combined
        (List.take (10 + 1) (VERSION ++ [32, 51, 10, 97, 98]) ++ [120, 121] ++
          List.drop (10 + 1) (VERSION ++ [32, 51, 10, 97, 98])) ∧
      strlen w' combined
        = .ok ((VERSION ++ [32, 51, 10, 97, 98]).length + [120, 121].length) :=
  add_include_file_splices demoLoaded (some 0) (some 1) "common.glsl"
    (VERSION ++ [32, 51, 10, 97, 98]) [120, 121] 0 10
    (load_into_buffer demoLoaded "common.glsl").2.2
    ⟨0, [], rfl, rfl, by decide, by decide⟩ (by decide)
    ⟨by decide, by intro k hk; omega⟩ (by decide) (by decide) (by decide) rfl
    ⟨1, [], rfl, rfl, rfl, by decide⟩ (by decide)

/-- The source `plain.glsl` ("a\n") has no `#version`: the splice fails and frees. -/
theorem add_include_file_fails_iff_witness :
    ((∃ w', add_include_file demoPlain (some 0) (some "common.glsl") = .ok (none, w')) ↔
      (¬ VERSION <:+: [97, 10] ∨
        ∃ v, FirstOccurrence VERSION [97, 10] v ∧
          ∀ k, v ≤ k → k < [97, 10].length → [97, 10][k]? ≠ some NEWLINE)) ∧
    (∀ w', add_include_file demoPlain (some 0) (some "common.glsl") = .ok (none, w') →
      ∃ b, some 0 = some b ∧ some 1 = some demoPlain.next ∧
        (demoPlain.heap b).frees = 0 ∧ (w'.heap b).frees = 1 ∧
        (w'.heap demoPlain.next).frees = 1 ∧ w'.next = demoPlain.next + 1 ∧
        (¬ VERSION <:+: [97, 10] →
          w'.out = demoPlain.out ++ ["ERROR - SHADER SOURCE FILE DID NOT CONTAIN A #version"]) ∧
        (VERSION <:+: [97, 10] → w'.out = demoPlain.out ++
          ["ERROR - END OF SHADER SOURCE FILE REACHED BEFORE END OF #version WAS FOUND"])) :=
  add_include_file_fails_iff demoPlain (some 0) (some 1) "common.glsl" [97, 10]
    (load_into_buffer demoPlain "common.glsl").2.2
    ⟨0, [], rfl, rfl, rfl, by decide⟩ (by decide) rfl

/-- A build whose fragment stage is rejected releases both buffers, the spliced vertex
source, the include buffer and both stage objects. -/
theorem builders_release_everything_witness :
    HeapReleased demoFragmentFails
        (worldAfter demoFragmentFails
          (shader_load demoFragmentFails "vertex.glsl" (some "common.glsl")
            "fragment.glsl" none)) ∧
      StagesReleased demoFragmentFails
        (worldAfter demoFragmentFails
          (shader_load demoFragmentFails "vertex.glsl" (some "common.glsl")
            "fragment.glsl" none)) :=
  builders_release_everything demoFragmentFails "vertex.glsl" (some "common.glsl")
    "fragment.glsl" none "vertex.glsl" none (-1) _ (Or.inl rfl)

/-- A successful build with include splice and program id 3 returns 3. -/
theorem shader_load_handle_witness :
    ∃ r w', shader_load demoWorld "vertex.glsl" (some "common.glsl") "fragment.glsl" none
        = .ok (r, w') ∧
      (3 < 2 ^ 31 → r = ((3 : Nat) : Int) ∧ 0 ≤ r) ∧
      (2 ^ 31 ≤ 3 → r = ((3 : Nat) : Int) - 2 ^ 32 ∧ r < 0) :=
  shader_load_handle demoWorld "vertex.glsl" (some "common.glsl") "fragment.glsl" none
    3 1 _ 1 2 3 [] 1 1 1 [] ⟨_, _, _, _, _, rfl, rfl, rfl, rfl⟩ demoFiles_small rfl
    (by decide) rfl (by decide) (by decide) (by decide)

/-- The empty file `empty.glsl` is rejected as an include. -/
theorem empty_include_rejected_witness :
    (load_into_buffer demoLoaded "empty.glsl").1 = false ∧
      ∃ w', add_include_file demoLoaded (some 0) (some "empty.glsl") = .ok (none, w') :=
  empty_include_rejected demoLoaded "empty.glsl" ⟨[], 64⟩ (some 0) rfl rfl

/-- Loading `empty.glsl` fails and leaves the address of freed block 0 in the buffer. -/
theorem load_into_buffer_dangling_witness :
    ∃ w', load_into_buffer demoWorld "empty.glsl" = (false, some demoWorld.next, w') ∧
      w'.next = demoWorld.next + 1 ∧ (w'.heap demoWorld.next).frees = 1 :=
  load_into_buffer_dangling demoWorld "empty.glsl" ⟨[], 64⟩ rfl (by decide) (Or.inl rfl)

/-- Splicing `common.glsl` into the loaded `vertex.glsl` stores one byte past the end of
the combined buffer and reads one byte past the base buffer. -/
theorem add_include_file_overflows_witness :
    ∃ c w', add_include_file demoLoaded (some 0) (some "common.glsl") = .ok (some c, w') ∧
      (w'.heap c).bytes.length
        = (VERSION ++ [32, 51, 10, 97, 98]).length + [120, 121].length + 1 ∧
      w'.oobWrites = demoLoaded.oobWrites + 1 ∧
      (∀ b, some 0 = some b →
        (demoLoaded.heap b).bytes.length = (VERSION ++ [32, 51, 10, 97, 98]).length + 1 →
        w'.oobReads = demoLoaded.oobReads + 1) :=
  add_include_file_overflows demoLoaded (some 0) (some 1) "common.glsl"
    (VERSION ++ [32, 51, 10, 97, 98]) [120, 121] 0 10
    (load_into_buffer demoLoaded "common.glsl").2.2
    ⟨0, [], rfl, rfl, by decide, by decide⟩ (by decide)
    ⟨by decide, by intro k hk; omega⟩ (by decide) (by decide) (by decide) rfl
    ⟨1, [], rfl, rfl, rfl, by decide⟩ (by decide)

end DoonEngine
